import Mathlib

/-!
# CHIP-8 interpreter (`vm.h`, `vm.cc`): shallow embedding and verified properties

The machine state `Chip8` mirrors the C++ struct field by field.  Fixed-size
arrays (`ram`, `v`, `display`, `keys`) are total functions on `Nat`.
Machine integers are `Nat` with the explicit truncation the C++ type implies
(`% 256` for `uint8_t`, `% 65536` for `uint16_t`).  The source indexes `ram` without a
check; an index just beyond the array falls on the registers, which follow `ram` in the
object (`ramRead`, `ramWrite`).  The register references
`x` and `y` of `Chip8::step` are modelled by their indices `X` and `Y`, and each
assignment through them is a write to the register file, so that aliasing with
`v[0xf]` behaves as in the source.  `std::rand()` is the parameter `rnd`.
-/

namespace Chip8cc

/-! ## Constants (`vm.h`) -/

def CHIP8_WIDTH : Nat := 64
def CHIP8_HEIGHT : Nat := 32
def CHIP8_MEMORY : Nat := 0x1000
def CHIP8_PROGRAM_START : Nat := 0x200
def CHIP8_FONT_HEIGHT : Nat := 5

def CHIP8_FONT : List Nat :=
  [0xF0, 0x90, 0x90, 0x90, 0xF0, -- 0
   0x20, 0x60, 0x20, 0x20, 0x70, -- 1
   0xF0, 0x10, 0xF0, 0x80, 0xF0, -- 2
   0xF0, 0x10, 0xF0, 0x10, 0xF0, -- 3
   0x90, 0x90, 0xF0, 0x10, 0x10, -- 4
   0xF0, 0x80, 0xF0, 0x10, 0xF0, -- 5
   0xF0, 0x80, 0xF0, 0x90, 0xF0, -- 6
   0xF0, 0x10, 0x20, 0x40, 0x40, -- 7
   0xF0, 0x90, 0xF0, 0x90, 0xF0, -- 8
   0xF0, 0x90, 0xF0, 0x10, 0xF0, -- 9
   0xF0, 0x90, 0xF0, 0x90, 0x90, -- a
   0xE0, 0x90, 0xE0, 0x90, 0xE0, -- b
   0xF0, 0x80, 0x80, 0x80, 0xF0, -- c
   0xE0, 0x90, 0x90, 0x90, 0xE0, -- d
   0xF0, 0x80, 0xF0, 0x80, 0xF0, -- e
   0xF0, 0x80, 0xF0, 0x80, 0x80] -- f

inductive Chip8_ErrorType where
  | Chip8_NoError
  | Chip8_InvalidHexDigit
  | Chip8_InvalidKey
  | Chip8_InvalidOpcode
  | Chip8_StackUnderflow
  deriving DecidableEq, Repr

open Chip8_ErrorType

/-! ## Machine state (`struct Chip8`) -/

/-- The fields of `struct Chip8`.  `awaiting_keypress` is a pointer into `v` in
the source; here it is the index of the register it points to. -/
structure Chip8 where
  ram : Nat → Nat
  v : Nat → Nat
  i : Nat
  pc : Nat
  stack : List Nat
  sound_tmr : Nat
  delay_tmr : Nat
  display : Nat → Bool
  keys : Nat → Bool
  awaiting_keypress : Option Nat
  error_type : Chip8_ErrorType
  error_addr : Nat
  error_opcode : Nat

/-- The default member initialisers of `struct Chip8`. -/
def Chip8.init : Chip8 where
  ram := fun _ => 0
  v := fun _ => 0
  i := 0
  pc := CHIP8_PROGRAM_START
  stack := []
  sound_tmr := 0
  delay_tmr := 0
  display := fun _ => false
  keys := fun _ => false
  awaiting_keypress := none
  error_type := Chip8_NoError
  error_addr := 0
  error_opcode := 0

/-! ## Array access -/

/-- Reading `ram[a]`, unchecked as in the source.  In `struct Chip8` the array `v` follows
`ram` directly (`uint8_t ram[CHIP8_MEMORY]; uint8_t v[16];`), so the index
`CHIP8_MEMORY + k` with `k < 16` falls on the byte of `v[k]`.  The source forms no index
above `0x1001` in a state reachable from the initial one (`reachable_accesses_le`); past the
registers the read is `0` here. -/
def ramRead (s : Chip8) (a : Nat) : Nat :=
  if a < CHIP8_MEMORY then s.ram a
  else if a < CHIP8_MEMORY + 16 then s.v (a - CHIP8_MEMORY)
  else 0

/-- Writing `ram[a] = b` with `b` truncated to `uint8_t`, unchecked as in the source: the
index `CHIP8_MEMORY + k` with `k < 16` falls on `v[k]`, which follows `ram` in the object.
Past the registers the write is left out here (no such index occurs in a reachable state). -/
def ramWrite (s : Chip8) (a b : Nat) : Chip8 :=
  if a < CHIP8_MEMORY then { s with ram := Function.update s.ram a (b % 256) }
  else if a < CHIP8_MEMORY + 16 then
    { s with v := Function.update s.v (a - CHIP8_MEMORY) (b % 256) }
  else s

/-- Assigning `b` to register `k`, truncated to `uint8_t`. -/
def setReg (v : Nat → Nat) (k b : Nat) : Nat → Nat :=
  Function.update v k (b % 256)

/-- Conversion of an integer to `uint8_t`. -/
def toU8 (z : Int) : Nat := (z % 256).toNat

/-- Conversion of an integer to `uint16_t`. -/
def toU16 (z : Int) : Nat := (z % 65536).toNat

/-- Conversion of a C++ `bool` to an integer. -/
def boolToNat (b : Bool) : Nat := if b then 1 else 0

/-! ## Inline members of `struct Chip8` (`vm.h`) -/

/-- `load_default_font`: copies `CHIP8_FONT` to the start of `ram`. -/
def load_default_font (s : Chip8) : Chip8 :=
  { s with ram := fun a => if a < CHIP8_FONT.length then CHIP8_FONT.getD a 0 else s.ram a }

/-- The `file.read` of `main`: copies the ROM bytes to `ram` from
`CHIP8_PROGRAM_START` on (`main` refuses a ROM that does not fit). -/
def load_program (bytes : List Nat) (s : Chip8) : Chip8 :=
  { s with ram := fun a =>
      if CHIP8_PROGRAM_START ≤ a ∧ a < CHIP8_PROGRAM_START + bytes.length
      then bytes.getD (a - CHIP8_PROGRAM_START) 0 % 256 else s.ram a }

/-- `key_down`. -/
def key_down (key : Nat) (s : Chip8) : Chip8 :=
  let s1 := { s with keys := if key < 16 then Function.update s.keys key true else s.keys }
  match s1.awaiting_keypress with
  | some r => { s1 with v := setReg s1.v r key, awaiting_keypress := none }
  | none => s1

/-- `key_up`. -/
def key_up (key : Nat) (s : Chip8) : Chip8 :=
  { s with keys := if key < 16 then Function.update s.keys key false else s.keys }

/-- `advance`: `pc += 2; pc &= 0x0fff`. -/
def advance (s : Chip8) : Chip8 :=
  { s with pc := ((s.pc + 2) % 65536) &&& 0x0fff }

/-- The instruction word `ram[pc] << 8 | ram[(pc + 1) & 0x0fff]` as `uint16_t`. -/
def fetchWord (s : Chip8) : Nat :=
  ((ramRead s s.pc <<< 8) ||| ramRead s ((s.pc + 1) &&& 0x0fff)) % 65536

/-- `fetch`: the instruction word and the state with `pc` advanced. -/
def fetch (s : Chip8) : Nat × Chip8 :=
  (fetchWord s, advance s)

/-! ## `Chip8::error` (`vm.cc`) -/

/-- `error`: records the fault, rolls `pc` back by 2, records the address, and
calls `fetch` again to record the opcode. -/
def error (type : Chip8_ErrorType) (s : Chip8) : Chip8 :=
  let s1 := { s with error_type := type }
  let s2 := { s1 with pc := toU16 ((s1.pc : Int) - 2) }
  let s3 := { s2 with pc := s2.pc &&& 0x0fff }
  let s4 := { s3 with error_addr := s3.pc }
  let r := fetch s4
  { r.2 with error_opcode := r.1 }

/-! ## `Chip8::step` (`vm.cc`) -/

/-- One iteration of the inner loop of the draw instruction (`case 0xd000`).
`x` and `y` are read through the register file at each pixel. -/
def drawPixel (X Y row row_byte : Nat) (s : Chip8) (col : Nat) : Chip8 :=
  let mask := 0x1 <<< (7 - col)
  let src := (row_byte &&& mask) != 0
  let idx := (s.v Y + row) % CHIP8_HEIGHT * CHIP8_WIDTH + (s.v X + col) % CHIP8_WIDTH
  let dest := s.display idx
  let s1 := if src && dest then { s with v := setReg s.v 0xf 1 } else s
  { s1 with display := Function.update s1.display idx (xor dest src) }

/-- One iteration of the outer loop of the draw instruction. -/
def drawRow (X Y : Nat) (s : Chip8) (row : Nat) : Chip8 :=
  let row_byte := ramRead s ((s.i + row) &&& 0xfff)
  (List.range 8).foldl (drawPixel X Y row row_byte) s

/-- The draw instruction: `v[0xf] = 0`, then the two nested loops. -/
def drawSprite (X Y n : Nat) (s : Chip8) : Chip8 :=
  (List.range n).foldl (drawRow X Y) { s with v := setReg s.v 0xf 0 }

/-- One iteration of the store loop (`case 0x55`): `ram[i] = *reg; ++i &= 0x0fff`. -/
def storeReg (s : Chip8) (reg : Nat) : Chip8 :=
  let s1 := ramWrite s s.i (s.v reg)
  { s1 with i := ((s1.i + 1) % 65536) &&& 0x0fff }

/-- One iteration of the load loop (`case 0x65`): `*reg = ram[i]; ++i &= 0x0fff`. -/
def loadReg (s : Chip8) (reg : Nat) : Chip8 :=
  let s1 := { s with v := setReg s.v reg (ramRead s s.i) }
  { s1 with i := ((s1.i + 1) % 65536) &&& 0x0fff }

/-- The arithmetic group, `case 0x8000`. -/
def step8 (op X Y : Nat) (s : Chip8) : Chip8 :=
  let n := op &&& 0x000F
  if n = 0x0 then { s with v := setReg s.v X (s.v Y) }
  else if n = 0x1 then { s with v := setReg s.v X (s.v X ||| s.v Y) }
  else if n = 0x2 then { s with v := setReg s.v X (s.v X &&& s.v Y) }
  else if n = 0x3 then { s with v := setReg s.v X (s.v X ^^^ s.v Y) }
  else if n = 0x4 then
    let v1 := setReg s.v X (s.v X + s.v Y)
    { s with v := setReg v1 0xf (boolToNat (decide (v1 X < v1 Y))) }
  else if n = 0x5 then
    let no_borrow := decide (s.v X ≥ s.v Y)
    let v1 := setReg s.v X (toU8 ((s.v X : Int) - (s.v Y : Int)))
    { s with v := setReg v1 0xf (boolToNat no_borrow) }
  else if n = 0x6 then
    let lsb := (s.v X &&& 0b00000001) != 0
    let v1 := setReg s.v X (s.v Y >>> 1)
    { s with v := setReg v1 0xf (boolToNat lsb) }
  else if n = 0x7 then
    let no_borrow := decide (s.v Y ≥ s.v X)
    let v1 := setReg s.v X (toU8 ((s.v Y : Int) - (s.v X : Int)))
    { s with v := setReg v1 0xf (boolToNat no_borrow) }
  else if n = 0xe then
    let msb := (s.v X &&& 0b10000000) != 0
    let v1 := setReg s.v X (s.v Y <<< 1)
    { s with v := setReg v1 0xf (boolToNat msb) }
  else error Chip8_InvalidOpcode s

/-- The key group, `case 0xe000`. -/
def stepE (X low_byte : Nat) (s : Chip8) : Chip8 :=
  if low_byte = 0x9e then
    if (s.v X &&& 0xf0) ≠ 0 then error Chip8_InvalidKey s
    else if s.keys (s.v X) then advance s else s
  else if low_byte = 0xa1 then
    if (s.v X &&& 0xf0) ≠ 0 then error Chip8_InvalidKey s
    else if !(s.keys (s.v X &&& 0x0f)) then advance s else s
  else error Chip8_InvalidOpcode s

/-- The miscellaneous group, `case 0xf000`. -/
def stepF (X low_byte : Nat) (s : Chip8) : Chip8 :=
  if low_byte = 0x07 then { s with v := setReg s.v X s.delay_tmr }
  else if low_byte = 0x0a then { s with awaiting_keypress := some X }
  else if low_byte = 0x15 then { s with delay_tmr := s.v X }
  else if low_byte = 0x18 then { s with sound_tmr := s.v X }
  else if low_byte = 0x1e then
    let s1 := { s with i := (s.i + s.v X) % 65536 }
    { s1 with i := s1.i &&& 0x0fff }
  else if low_byte = 0x29 then
    if (s.v X &&& 0xf0) ≠ 0 then error Chip8_InvalidHexDigit s
    else { s with i := (s.v X * CHIP8_FONT_HEIGHT) % 65536 }
  else if low_byte = 0x33 then
    let s1 := ramWrite s s.i (s.v X / 100)
    let s2 := ramWrite s1 (s1.i + 1) (s1.v X / 10 % 10)
    ramWrite s2 (s2.i + 2) (s2.v X % 10)
  else if low_byte = 0x55 then (List.range (X + 1)).foldl storeReg s
  else if low_byte = 0x65 then (List.range (X + 1)).foldl loadReg s
  else error Chip8_InvalidOpcode s

/-- The body of `step` after the fetch: the `switch (op & 0xf000)`.  `s` is the
state with `pc` already advanced; `rnd` is the value of `std::rand()`. -/
def exec (rnd op : Nat) (s : Chip8) : Chip8 :=
  let X := (op &&& 0x0f00) >>> 8
  let Y := (op &&& 0x00f0) >>> 4
  let addr := op &&& 0x0fff
  let low_byte := op &&& 0x00ff
  let hi := op &&& 0xf000
  if hi = 0x0000 then
    if op = 0x00e0 then { s with display := fun _ => false }
    else if op = 0x00ee then
      match s.stack.getLast? with
      | none => error Chip8_StackUnderflow s
      | some back => { s with pc := back, stack := s.stack.dropLast }
    else error Chip8_InvalidOpcode s
  else if hi = 0x1000 then { s with pc := addr }
  else if hi = 0x2000 then { s with stack := s.stack ++ [s.pc], pc := addr }
  else if hi = 0x3000 then if s.v X = low_byte then advance s else s
  else if hi = 0x4000 then if s.v X ≠ low_byte then advance s else s
  else if hi = 0x5000 then
    if (op &&& 0x000f) ≠ 0 then error Chip8_InvalidOpcode s
    else if s.v X = s.v Y then advance s else s
  else if hi = 0x6000 then { s with v := setReg s.v X low_byte }
  else if hi = 0x7000 then { s with v := setReg s.v X (s.v X + low_byte) }
  else if hi = 0x8000 then step8 op X Y s
  else if hi = 0x9000 then
    if (op &&& 0x000f) ≠ 0 then error Chip8_InvalidOpcode s
    else if s.v X ≠ s.v Y then { s with pc := (s.pc + 2) % 65536 } else s
  else if hi = 0xa000 then { s with i := addr }
  else if hi = 0xb000 then { s with pc := (addr + s.v 0) &&& 0x0fff }
  else if hi = 0xc000 then { s with v := setReg s.v X (rnd &&& low_byte) }
  else if hi = 0xd000 then drawSprite X Y (op &&& 0x000f) s
  else if hi = 0xe000 then stepE X low_byte s
  else if hi = 0xf000 then stepF X low_byte s
  else error Chip8_InvalidOpcode s

/-- `Chip8::step`: nothing while a fault is recorded or a key is awaited;
otherwise fetch and execute one instruction. -/
def step (rnd : Nat) (s : Chip8) : Chip8 :=
  if s.error_type ≠ Chip8_NoError ∨ s.awaiting_keypress.isSome then s
  else
    let r := fetch s
    exec rnd r.1 r.2

/-- A state that executes an instruction on the next `step`. -/
def Running (s : Chip8) : Prop :=
  s.error_type = Chip8_NoError ∧ s.awaiting_keypress = none

/-- `n` consecutive calls of `step`, each with its own `std::rand()` value. -/
def stepN (rnd : Nat → Nat) : Nat → Chip8 → Chip8
  | 0, s => s
  | n + 1, s => stepN rnd n (step (rnd n) s)

/-! ## Auxiliary predicates and concrete states -/

/-- The result `r` of an instruction on `t` either keeps the fault record's kind
or is `error ty t` for some kind `ty`. -/
def FaultOrKeep (t r : Chip8) : Prop :=
  r.error_type = t.error_type ∨ ∃ ty, r = error ty t

/-- ROM `00 EE`: a return with nothing on the call stack. -/
def returnState : Chip8 := load_program [0x00, 0xEE] (load_default_font Chip8.init)

/-- ROM `60 03 61 0A 80 15`: `V0 = 3`, `V1 = 10`, then sub-reg `V0 -= V1`. -/
def subProgram : Chip8 :=
  load_program [0x60, 0x03, 0x61, 0x0A, 0x80, 0x15] (load_default_font Chip8.init)

/-- The state of `subProgram` after its two load instructions, before the sub-reg word. -/
def subState : Chip8 := stepN (fun _ => 0) 2 subProgram

/-- The freshly constructed machine, with or without `load_default_font`, and the program
`60+X a 70+X b` (load `a` into `VX`, add `b` to `VX`) loaded at `0x200`. -/
def immProgram (font : Bool) (X a b : Nat) : Chip8 :=
  load_program [0x60 ||| X, a, 0x70 ||| X, b]
    (if font then load_default_font Chip8.init else Chip8.init)

/-- The five bytes of the glyph of hexadecimal digit `d` in `CHIP8_FONT`. -/
def glyph (d : Nat) : List Nat := (CHIP8_FONT.drop (CHIP8_FONT_HEIGHT * d)).take CHIP8_FONT_HEIGHT

/-- Font loaded and not overwritten: `ram` agrees with `CHIP8_FONT` on the font area. -/
def FontIntact (s : Chip8) : Prop := ∀ a, a < CHIP8_FONT.length → s.ram a = CHIP8_FONT.getD a 0

/-- ROM `63 0A F3 29` after its first instruction: `V3 = 0xA`, the word `F329` at `pc`. -/
def fontState : Chip8 :=
  step 0 (load_program [0x63, 0x0A, 0xF3, 0x29] (load_default_font Chip8.init))

/-- ROM `63 10 F3 29` after its first instruction: `V3 = 0x10`, the word `F329` at `pc`. -/
def fontFaultState : Chip8 :=
  step 0 (load_program [0x63, 0x10, 0xF3, 0x29] (load_default_font Chip8.init))

/-- ROM `F5 0A`: wait for a key into register 5. -/
def waitState : Chip8 := load_program [0xF5, 0x0A] (load_default_font Chip8.init)

/-- ROM `60 F5 61 0A AF FE F1 55 1F FE`: stores the word `F50A` in the last two bytes of
memory (`V0 = 0xF5`, `V1 = 0x0A`, `I = 0xFFE`, store-regs up to `V1`) and jumps to `0xFFE`. -/
def wrapWaitProgram : Chip8 :=
  load_program [0x60, 0xF5, 0x61, 0x0A, 0xAF, 0xFE, 0xF1, 0x55, 0x1F, 0xFE]
    (load_default_font Chip8.init)

/-- The state after the five instructions of `wrapWaitProgram`: running, `pc = 0xFFE`,
the word `F50A` at `pc`. -/
def wrapWaitState : Chip8 := stepN (fun _ => 0) 5 wrapWaitProgram

/-! ## The draw instruction as a fold over pixels -/

/-- The sprite bit the draw loops test at `(row, col)`: `row_byte & (0x1 << (7 - col))`. -/
def spriteBit (s : Chip8) (row col : Nat) : Bool :=
  (ramRead s ((s.i + row) &&& 0xfff) &&& (0x1 <<< (7 - col))) != 0

/-- The index into `display` of the pixel at `(row, col)` of a sprite drawn at `(vx, vy)`. -/
def cellIndex (vx vy row col : Nat) : Nat :=
  (vy + row) % CHIP8_HEIGHT * CHIP8_WIDTH + (vx + col) % CHIP8_WIDTH

/-- One pixel of the draw loops, the row byte being read from `ram` at the pixel. -/
def drawPixelAt (X Y : Nat) (s : Chip8) (p : Nat × Nat) : Chip8 :=
  drawPixel X Y p.1 (ramRead s ((s.i + p.1) &&& 0xfff)) s p.2

/-- Whether the draw of `n` rows at the coordinates held by registers `X`, `Y` of `s`
flips the display cell `idx`: some sprite pixel that is set lands on it. -/
def spriteHits (s : Chip8) (X Y n idx : Nat) : Bool :=
  ((List.range n) ×ˢ (List.range 8)).any (fun p =>
    decide (idx = cellIndex (s.v X) (s.v Y) p.1 p.2) && spriteBit s p.1 p.2)

/-- ROM `60 3C A2 06 D0 11 FF`: `V0 = 60`, `I = 0x206` (the byte `0xFF`), then the draw
`D011` of one row at column `V0 = 60` of row `V1 = 0`. -/
def wrapDrawProgram : Chip8 :=
  load_program [0x60, 0x3C, 0xA2, 0x06, 0xD0, 0x11, 0xFF] (load_default_font Chip8.init)

/-- The state of `wrapDrawProgram` before its draw instruction; the display is blank. -/
def wrapDrawState : Chip8 := stepN (fun _ => 0) 2 wrapDrawProgram

/-- ROM `60 C8 80 04`: `V0 = 200`, then `V0 += V0` (add-reg with `X = Y = 0`). -/
def addSelfProgram : Chip8 :=
  load_program [0x60, 0xC8, 0x80, 0x04] (load_default_font Chip8.init)

/-- ROM `A2 06 DF 01 DF 01 C0`: `I = 0x206` (the sprite byte `0xC0`), then the draw
`DF01` (`X = 15`, `Y = 0`, one row) twice. -/
def drawTwiceProgram : Chip8 :=
  load_program [0xA2, 0x06, 0xDF, 0x01, 0xDF, 0x01, 0xC0] (load_default_font Chip8.init)

/-! ## Instruction patterns -/

/-- Hexadecimal digit `k` of a word, digit 0 being the least significant. -/
def hexDigit (w k : Nat) : Nat := w / 16 ^ k % 16

/-- A digit of an instruction pattern: a fixed hexadecimal digit, or a free one
(the `X`, `Y`, `N` of the pattern). -/
def digitMatches (d : Nat) : Option Nat → Bool
  | none => true
  | some e => d == e

/-- An instruction pattern is four digits, most significant first. -/
def matchesPattern (w : Nat) (p : Option Nat × Option Nat × Option Nat × Option Nat) : Bool :=
  digitMatches (hexDigit w 3) p.1 && digitMatches (hexDigit w 2) p.2.1 &&
  digitMatches (hexDigit w 1) p.2.2.1 && digitMatches (hexDigit w 0) p.2.2.2

/-- The instruction patterns of the machine: 00E0, 00EE, 1NNN, 2NNN, 3XNN, 4XNN, 5XY0,
6XNN, 7XNN, 8XY0..8XY7, 8XYE, 9XY0, ANNN, BNNN, CXNN, DXYN, EX9E, EXA1, FX07, FX0A, FX15,
FX18, FX1E, FX29, FX33, FX55, FX65. -/
def instructionPatterns : List (Option Nat × Option Nat × Option Nat × Option Nat) :=
  [(some 0, some 0, some 0xE, some 0), (some 0, some 0, some 0xE, some 0xE),
   (some 1, none, none, none), (some 2, none, none, none), (some 3, none, none, none),
   (some 4, none, none, none), (some 5, none, none, some 0), (some 6, none, none, none),
   (some 7, none, none, none),
   (some 8, none, none, some 0), (some 8, none, none, some 1), (some 8, none, none, some 2),
   (some 8, none, none, some 3), (some 8, none, none, some 4), (some 8, none, none, some 5),
   (some 8, none, none, some 6), (some 8, none, none, some 7), (some 8, none, none, some 0xE),
   (some 9, none, none, some 0), (some 0xA, none, none, none), (some 0xB, none, none, none),
   (some 0xC, none, none, none), (some 0xD, none, none, none),
   (some 0xE, none, some 9, some 0xE), (some 0xE, none, some 0xA, some 1),
   (some 0xF, none, some 0, some 7), (some 0xF, none, some 0, some 0xA),
   (some 0xF, none, some 1, some 5), (some 0xF, none, some 1, some 8),
   (some 0xF, none, some 1, some 0xE), (some 0xF, none, some 2, some 9),
   (some 0xF, none, some 3, some 3), (some 0xF, none, some 5, some 5),
   (some 0xF, none, some 6, some 5)]

/-- The word matches one of the instruction patterns. -/
def matchesInstruction (w : Nat) : Bool := instructionPatterns.any (matchesPattern w)

/-- ROM `51 21`: a skip-eq-reg word with a nonzero low nibble. -/
def badSkipState : Chip8 := load_program [0x51, 0x21] (load_default_font Chip8.init)

/-- The state after the faulting instruction of `badSkipState`: a fault is recorded. -/
def haltedState : Chip8 := step 0 badSkipState

/-- ROM `60 03 61 84 80 16` after its two load instructions: `V0 = 3`, `V1 = 0x84`, the
shift-right word `8016` at `pc`. -/
def shiftRightState : Chip8 :=
  stepN (fun _ => 0) 2
    (load_program [0x60, 0x03, 0x61, 0x84, 0x80, 0x16] (load_default_font Chip8.init))

/-- ROM `60 83 61 C4 80 1E` after its two load instructions: `V0 = 0x83`, `V1 = 0xC4`, the
shift-left word `801E` at `pc`. -/
def shiftLeftState : Chip8 :=
  stepN (fun _ => 0) 2
    (load_program [0x60, 0x83, 0x61, 0xC4, 0x80, 0x1E] (load_default_font Chip8.init))

/-- ROM `60 EA A3 00 F0 33` after its first two instructions: `V0 = 234`, `I = 0x300`, the
store-bcd word `F033` at `pc`. -/
def bcdState : Chip8 :=
  stepN (fun _ => 0) 2
    (load_program [0x60, 0xEA, 0xA3, 0x00, 0xF0, 0x33] (load_default_font Chip8.init))

/-- ROM `22 04 00 00 00 EE`: a call of the subroutine at `0x204`, which returns at once. -/
def callProgram : Chip8 :=
  load_program [0x22, 0x04, 0x00, 0x00, 0x00, 0xEE] (load_default_font Chip8.init)

/-- ROM `60 11 61 22 A3 00 F1 55 60 00 61 00 A3 00 F1 65`: `V0 = 0x11`, `V1 = 0x22`,
`I = 0x300`, store-regs up to `V1`, then `V0 = 0`, `V1 = 0`, `I = 0x300`, load-regs up to `V1`. -/
def storeLoadProgram : Chip8 :=
  load_program [0x60, 0x11, 0x61, 0x22, 0xA3, 0x00, 0xF1, 0x55,
    0x60, 0x00, 0x61, 0x00, 0xA3, 0x00, 0xF1, 0x65] (load_default_font Chip8.init)

/-- The state of `storeLoadProgram` before its store-regs instruction. -/
def storeState : Chip8 := stepN (fun _ => 0) 3 storeLoadProgram

/-- The state of `storeLoadProgram` before its load-regs instruction: the registers stored
have been overwritten and `I` has been set back. -/
def loadState : Chip8 := stepN (fun _ => 0) 7 storeLoadProgram

/-- ROM `60 05 F1 0A F0 15` after two steps: `V0 = 5`, the machine waits for a key, and the
word at `pc` is the set-delay word `F015`. -/
def waitingAtSetDelayState : Chip8 :=
  stepN (fun _ => 0) 2
    (load_program [0x60, 0x05, 0xF1, 0x0A, 0xF0, 0x15] (load_default_font Chip8.init))

/-- ROM `60 05 F0 15` after its first instruction: `V0 = 5`, the set-delay word at `pc`. -/
def setDelayState : Chip8 :=
  step 0 (load_program [0x60, 0x05, 0xF0, 0x15] (load_default_font Chip8.init))

/-- Both timers of `r` are those of `t`. -/
@[reducible]
def TimersKept (t r : Chip8) : Prop :=
  r.delay_tmr = t.delay_tmr ∧ r.sound_tmr = t.sound_tmr

/-- ROM `E0 9E`: skip-if-key-pressed on `V0 = 0`, a matched word. -/
def keySkipState : Chip8 := load_program [0xE0, 0x9E] (load_default_font Chip8.init)

/-- The states the host starts the machine from: the constructed machine (`pc = 0x200`,
registers, stack, timers, display and keys cleared, no fault, no pending key) with arbitrary
bytes in memory (the font and the ROM). -/
def Initial (s : Chip8) : Prop :=
  ∃ ram : Nat → Nat, (∀ a, ram a < 256) ∧ s = { Chip8.init with ram := ram }

/-- The state `s` is reached from `s0` by a sequence of `step`, `key_down k` and `key_up k`
calls with `k < 16`. -/
inductive Reaches (s0 : Chip8) : Chip8 → Prop where
  | start : Reaches s0 s0
  | byStep (rnd : Nat) {s : Chip8} : Reaches s0 s → Reaches s0 (step rnd s)
  | byKeyDown (k : Nat) {s : Chip8} : k < 16 → Reaches s0 s → Reaches s0 (key_down k s)
  | byKeyUp (k : Nat) {s : Chip8} : k < 16 → Reaches s0 s → Reaches s0 (key_up k s)

/-- The states reachable from an initial state. -/
def Reachable (s : Chip8) : Prop := ∃ s0, Initial s0 ∧ Reaches s0 s

/-- The invariant of the reachable states: registers are bytes, `i` and the entries of the
call stack are 12-bit addresses, `pc` is at most `0x1001`, and a fault and a pending key
are never both set. -/
structure Inv (s : Chip8) : Prop where
  v_lt : ∀ k, s.v k < 256
  i_le : s.i ≤ 0xFFF
  stack_le : ∀ a ∈ s.stack, a ≤ 0xFFF
  pc_le : s.pc ≤ 0x1001
  not_both : s.error_type = Chip8_NoError ∨ s.awaiting_keypress = none

/-- ROM `60 90 61 10 AF FC F1 55 1F FC`: stores the skip-ne-reg word `9010` at `0xFFC`
(`V0 = 0x90`, `V1 = 0x10`, `I = 0xFFC`, store-regs up to `V1`) and jumps to `0xFFC`. -/
def skipAtEndProgram : Chip8 :=
  load_program [0x60, 0x90, 0x61, 0x10, 0xAF, 0xFC, 0xF1, 0x55, 0x1F, 0xFC]
    (load_default_font Chip8.init)

/-- The state after the five instructions of `skipAtEndProgram`: running, `pc = 0xFFC`, the
word `9010` at `pc`, and `V0 ≠ V1`, so the skip is taken. -/
def skipAtEndState : Chip8 := stepN (fun _ => 0) 5 skipAtEndProgram

/-- ROM `60 40 61 50 AF FC F1 55 1F FC` after its five instructions: as `skipAtEndState`,
with the skip-ne-imm word `4050` at `pc = 0xFFC` and `V0 ≠ 0x50`, so the skip is taken. -/
def skipImmAtEndState : Chip8 :=
  stepN (fun _ => 0) 5
    (load_program [0x60, 0x40, 0x61, 0x50, 0xAF, 0xFC, 0xF1, 0x55, 0x1F, 0xFC]
      (load_default_font Chip8.init))

/-- The indices of `ram` that `fetch` uses in state `s`: `ram[pc]` and
`ram[(pc + 1) & 0x0fff]`. -/
def fetchAccesses (s : Chip8) : List Nat :=
  [s.pc, (s.pc + 1) &&& 0x0fff]

/-- The indices of `ram` that `error` uses when called in state `s`: those of its `fetch`,
after `pc -= 2; pc &= 0x0fff`. -/
def errorAccesses (s : Chip8) : List Nat :=
  fetchAccesses { s with pc := toU16 ((s.pc : Int) - 2) &&& 0x0fff }

/-- The indices `ram[i]` of the store-regs and load-regs loops: `n` iterations from `i`, each
followed by `++i &= 0x0fff`. -/
def regLoopAccesses (i : Nat) : Nat → List Nat
  | 0 => []
  | n + 1 => i :: regLoopAccesses (((i + 1) % 65536) &&& 0x0fff) n

/-- The indices of `ram` that the instruction `op` uses in state `s` (`pc` already advanced):
the sprite rows `ram[(i + row) & 0xfff]` of the draw instruction, `ram[i]`, `ram[i + 1]`,
`ram[i + 2]` of store-bcd, `ram[i]` at each iteration of store-regs and load-regs, and the
re-fetch of `error` when the instruction faults. -/
def execAccesses (rnd op : Nat) (s : Chip8) : List Nat :=
  let X := (op &&& 0x0f00) >>> 8
  let low_byte := op &&& 0x00ff
  let hi := op &&& 0xf000
  let own :=
    if hi = 0xd000 then (List.range (op &&& 0x000f)).map (fun row => (s.i + row) &&& 0xfff)
    else if hi = 0xf000 then
      if low_byte = 0x33 then [s.i, s.i + 1, s.i + 2]
      else if low_byte = 0x55 then regLoopAccesses s.i (X + 1)
      else if low_byte = 0x65 then regLoopAccesses s.i (X + 1)
      else []
    else []
  own ++ (if (exec rnd op s).error_type ≠ s.error_type then errorAccesses s else [])

/-- The indices of `ram` that `step` uses in state `s`: none while a fault is recorded or a
key is awaited, otherwise those of `fetch` and of the instruction fetched. -/
def stepAccesses (rnd : Nat) (s : Chip8) : List Nat :=
  if s.error_type ≠ Chip8_NoError ∨ s.awaiting_keypress.isSome then []
  else fetchAccesses s ++ execAccesses rnd (fetchWord s) (advance s)

/-- ROM `60 EA AF FF F0 33` after its first two instructions: `V0 = 234`, `I = 0xFFF`, the
store-bcd word `F033` at `pc`. -/
def bcdAtEndState : Chip8 :=
  stepN (fun _ => 0) 2
    (load_program [0x60, 0xEA, 0xAF, 0xFF, 0xF0, 0x33] (load_default_font Chip8.init))

/-- ROM `62 EA AF FF F2 33` after its first two instructions: `V2 = 234`, `I = 0xFFF`, the
store-bcd word `F233` at `pc`. -/
def bcdPastEndState : Chip8 :=
  stepN (fun _ => 0) 2
    (load_program [0x62, 0xEA, 0xAF, 0xFF, 0xF2, 0x33] (load_default_font Chip8.init))

/-- ROM `60 90 61 10 AF FC F1 55 A0 00 61 15 F1 55 60 F0 1F FC` after ten steps: the word
`9010` stored at `0xFFC`, the byte `0x15` stored at `ram[1]`, `V0 = 0xF0`, and the taken skip
at `0xFFC` has left `pc = 0x1000`. -/
def delayPastEndState : Chip8 :=
  stepN (fun _ => 0) 10
    (load_program [0x60, 0x90, 0x61, 0x10, 0xAF, 0xFC, 0xF1, 0x55, 0xA0, 0x00, 0x61, 0x15,
      0xF1, 0x55, 0x60, 0xF0, 0x1F, 0xFC] (load_default_font Chip8.init))

/-! ## Bit-level decoding lemmas -/

theorem and_0fff (w : Nat) : w &&& 0x0fff = w % 4096 := Nat.and_pow_two_sub_one_eq_mod w 12
theorem and_00ff (w : Nat) : w &&& 0x00ff = w % 256 := Nat.and_pow_two_sub_one_eq_mod w 8
theorem and_000f (w : Nat) : w &&& 0x000f = w % 16 := Nat.and_pow_two_sub_one_eq_mod w 4

theorem and_nibble_shift (w k : Nat) : (w &&& ((2 ^ 4 - 1) <<< k)) >>> k = w / 2 ^ k % 2 ^ 4 := by
  apply Nat.eq_of_testBit_eq
  intro j
  rw [← Nat.shiftRight_eq_div_pow]
  simp only [Nat.testBit_shiftRight, Nat.testBit_and, Nat.testBit_shiftLeft,
    Nat.testBit_two_pow_sub_one, Nat.testBit_mod_two_pow]
  have : k + j - k = j := by omega
  have h2 : k + j ≥ k := by omega
  simp [this, h2, Bool.and_comm]

theorem and_nibble (w k : Nat) : w &&& ((2 ^ 4 - 1) <<< k) = 2 ^ k * (w / 2 ^ k % 2 ^ 4) := by
  apply Nat.eq_of_testBit_eq
  intro j
  rw [← Nat.shiftRight_eq_div_pow, Nat.mul_comm, ← Nat.shiftLeft_eq]
  simp only [Nat.testBit_shiftRight, Nat.testBit_and, Nat.testBit_shiftLeft,
    Nat.testBit_two_pow_sub_one, Nat.testBit_mod_two_pow]
  by_cases h : j ≥ k
  · have : k + (j - k) = j := by omega
    simp [h, this, Bool.and_comm]
  · simp [h]

theorem and_0f00_shift (w : Nat) : (w &&& 0x0f00) >>> 8 = w / 256 % 16 := and_nibble_shift w 8
theorem and_00f0_shift (w : Nat) : (w &&& 0x00f0) >>> 4 = w / 16 % 16 := and_nibble_shift w 4
theorem and_f000 (w : Nat) : w &&& 0xf000 = 4096 * (w / 4096 % 16) := and_nibble w 12
theorem and_f0 (w : Nat) : w &&& 0xf0 = 16 * (w / 16 % 16) := and_nibble w 4
theorem shl8_or (a b : Nat) (h : b < 256) : (a <<< 8) ||| b = 256 * a + b := by
  rw [Nat.shiftLeft_eq, Nat.mul_comm]
  exact (Nat.mul_add_lt_is_or (i := 8) h a).symm

theorem or_low_nibble (h X : Nat) (hX : X < 16) : (16 * h) ||| X = 16 * h + X :=
  (Nat.mul_add_lt_is_or (i := 4) hX h).symm

theorem decode_word (a X Y N : Nat) (ha : a < 16) (hX : X < 16) (hY : Y < 16) (hN : N < 16) :
    (0x1000 * a + 0x100 * X + 0x10 * Y + N) &&& 0xf000 = 0x1000 * a ∧
    ((0x1000 * a + 0x100 * X + 0x10 * Y + N) &&& 0x0f00) >>> 8 = X ∧
    ((0x1000 * a + 0x100 * X + 0x10 * Y + N) &&& 0x00f0) >>> 4 = Y ∧
    (0x1000 * a + 0x100 * X + 0x10 * Y + N) &&& 0x000f = N ∧
    (0x1000 * a + 0x100 * X + 0x10 * Y + N) &&& 0x00ff = 0x10 * Y + N ∧
    (0x1000 * a + 0x100 * X + 0x10 * Y + N) &&& 0x0fff = 0x100 * X + 0x10 * Y + N := by
  rw [and_f000, and_0f00_shift, and_00f0_shift, and_000f, and_00ff, and_0fff]
  omega

theorem low_byte_digits (w b : Nat) (h : w % 256 = b) :
    w / 16 % 16 = b / 16 ∧ w % 16 = b % 16 := by
  omega

theorem top_digit_cases (a : Nat) (h : a < 16) (h1 : ¬ a = 1) (h2 : ¬ a = 2) (h3 : ¬ a = 3)
    (h4 : ¬ a = 4) (h6 : ¬ a = 6) (h7 : ¬ a = 7) (h10 : ¬ a = 10) (h11 : ¬ a = 11)
    (h12 : ¬ a = 12) (h13 : ¬ a = 13) :
    a = 0 ∨ a = 5 ∨ a = 8 ∨ a = 9 ∨ a = 14 ∨ a = 15 := by
  omega

theorem high_nibble_zero_iff (x : Nat) (hx : x < 256) : (x &&& 0xf0) = 0 ↔ x ≤ 15 := by
  rw [and_f0]; omega

theorem and_one_shiftLeft_ne_zero (b k : Nat) : ((b &&& (0x1 <<< k)) != 0) = b.testBit k := by
  rw [Nat.one_shiftLeft]
  by_cases h : b.testBit k = true
  · rw [h]
    have hne : b &&& 2 ^ k ≠ 0 := by
      intro h0
      have h1 : (b &&& 2 ^ k).testBit k = true := by
        rw [Nat.testBit_and, h, Nat.testBit_two_pow_self]; rfl
      rw [h0] at h1
      simp at h1
    simpa using hne
  · have hf : b.testBit k = false := by simpa using h
    rw [hf]
    have h0 : b &&& 2 ^ k = 0 := by
      apply Nat.eq_of_testBit_eq
      intro j
      rw [Nat.testBit_and, Nat.testBit_two_pow]
      by_cases hj : k = j
      · subst hj; simp [hf]
      · simp [hj]
    simp [h0]

/-! ## Basic facts about the machine -/

theorem setReg_same (v : Nat → Nat) (k b : Nat) : setReg v k b k = b % 256 := by
  simp [setReg]

theorem setReg_other (v : Nat → Nat) (k b j : Nat) (h : j ≠ k) : setReg v k b j = v j := by
  simp [setReg, Function.update, h]

theorem ramRead_lt (s : Chip8) (a : Nat) (h : a < 4096) : ramRead s a = s.ram a := by
  unfold ramRead CHIP8_MEMORY
  rw [if_pos h]

theorem ramRead_mask (s : Chip8) (x : Nat) : ramRead s (x &&& 0xfff) = s.ram (x &&& 0xfff) :=
  ramRead_lt s _ (by rw [and_0fff]; omega)

theorem ramRead_congr (t u : Chip8) (hr : t.ram = u.ram) (a : Nat) (h : a < 4096) :
    ramRead t a = ramRead u a := by
  rw [ramRead_lt t a h, ramRead_lt u a h, hr]

theorem ramWrite_lt (s : Chip8) (a b : Nat) (h : a < 4096) :
    ramWrite s a b = { s with ram := Function.update s.ram a (b % 256) } := by
  unfold ramWrite CHIP8_MEMORY
  rw [if_pos h]

/-- A write through `ram[a]` touches `ram` and, past the array, `v`; nothing else. -/
theorem ramWrite_frame (s : Chip8) (a b : Nat) :
    (ramWrite s a b).i = s.i ∧ (ramWrite s a b).pc = s.pc ∧
    (ramWrite s a b).stack = s.stack ∧ (ramWrite s a b).sound_tmr = s.sound_tmr ∧
    (ramWrite s a b).delay_tmr = s.delay_tmr ∧ (ramWrite s a b).display = s.display ∧
    (ramWrite s a b).keys = s.keys ∧
    (ramWrite s a b).awaiting_keypress = s.awaiting_keypress ∧
    (ramWrite s a b).error_type = s.error_type ∧ (ramWrite s a b).error_addr = s.error_addr ∧
    (ramWrite s a b).error_opcode = s.error_opcode := by
  unfold ramWrite
  split
  · exact ⟨rfl, rfl, rfl, rfl, rfl, rfl, rfl, rfl, rfl, rfl, rfl⟩
  · split <;> exact ⟨rfl, rfl, rfl, rfl, rfl, rfl, rfl, rfl, rfl, rfl, rfl⟩

theorem ramWrite_error_type (s : Chip8) (a b : Nat) :
    (ramWrite s a b).error_type = s.error_type :=
  (ramWrite_frame s a b).2.2.2.2.2.2.2.2.1

theorem fetchWord_congr (t s : Chip8) (hr : t.ram = s.ram) (hp : t.pc = s.pc)
    (h : s.pc < 4096) : fetchWord t = fetchWord s := by
  unfold fetchWord
  rw [hp, ramRead_congr t s hr _ h, ramRead_mask, ramRead_mask, hr]

theorem step_running (rnd : Nat) (s : Chip8) (h : Running s) :
    step rnd s = exec rnd (fetchWord s) (advance s) := by
  obtain ⟨h1, h2⟩ := h
  simp [step, fetch, h1, h2]

theorem advance_pc (s : Chip8) : (advance s).pc = (s.pc + 2) % 4096 := by
  simp only [advance, and_0fff]; omega

theorem fetchWord_bytes (s : Chip8) (hi lo : Nat) (hpc : s.pc + 1 < 4096)
    (h0 : s.ram s.pc = hi) (h1 : s.ram (s.pc + 1) = lo) (hhi : hi < 256) (hlo : lo < 256) :
    fetchWord s = 256 * hi + lo := by
  unfold fetchWord ramRead CHIP8_MEMORY
  rw [and_0fff]
  have h2 : (s.pc + 1) % 4096 = s.pc + 1 := Nat.mod_eq_of_lt hpc
  have h3 : s.pc < 4096 := by omega
  rw [h2, if_pos h3, if_pos hpc, h0, h1, shl8_or _ _ hlo]
  omega

theorem step_noop (rnd : Nat) (s : Chip8)
    (h : s.error_type ≠ Chip8_NoError ∨ s.awaiting_keypress ≠ none) : step rnd s = s := by
  unfold step
  rw [if_pos]
  rcases h with h | h
  · exact Or.inl h
  · right
    cases hk : s.awaiting_keypress with
    | none => exact absurd hk h
    | some r => rfl

theorem stepN_noop (rnds : Nat → Nat) (n : Nat) (s : Chip8)
    (h : s.error_type ≠ Chip8_NoError ∨ s.awaiting_keypress ≠ none) : stepN rnds n s = s := by
  induction n with
  | zero => rfl
  | succ n ih =>
    show stepN rnds n (step (rnds n) s) = s
    rw [step_noop _ s h]
    exact ih

theorem error_record (ty : Chip8_ErrorType) (s : Chip8) (hpc : s.pc ≤ 0xFFF) :
    (error ty (advance s)).error_type = ty ∧
    (error ty (advance s)).error_addr = s.pc ∧
    (error ty (advance s)).error_opcode = fetchWord s ∧
    (error ty (advance s)).pc = (s.pc + 2) % 4096 := by
  have h1 : (toU16 (((advance s).pc : Int) - 2)) &&& 0x0fff = s.pc := by
    rw [advance_pc, and_0fff]; unfold toU16; omega
  refine ⟨rfl, ?_, ?_, ?_⟩
  · simp only [error, fetch, advance]
    exact h1
  · simp only [error, fetch]
    exact fetchWord_congr _ s rfl h1 (by omega)
  · simp only [error, fetch]
    show (advance _).pc = _
    rw [advance_pc]
    show ((toU16 (((advance s).pc : Int) - 2) &&& 0x0fff) + 2) % 4096 = _
    rw [h1]

theorem foldl_inv {α : Type} (P : Chip8 → Prop) (f : Chip8 → α → Chip8)
    (h : ∀ s a, P s → P (f s a)) : ∀ (l : List α) (s : Chip8), P s → P (l.foldl f s) := by
  intro l
  induction l with
  | nil => intro s hs; exact hs
  | cons a l ih => intro s hs; exact ih (f s a) (h s a hs)

theorem drawPixel_error_type (X Y row b : Nat) (s : Chip8) (col : Nat) :
    (drawPixel X Y row b s col).error_type = s.error_type := by
  unfold drawPixel
  dsimp only
  split <;> rfl

theorem drawSprite_error_type (X Y n : Nat) (s : Chip8) :
    (drawSprite X Y n s).error_type = s.error_type := by
  unfold drawSprite
  apply foldl_inv (fun t => t.error_type = s.error_type)
  · intro t row ht
    unfold drawRow
    apply foldl_inv (fun u => u.error_type = s.error_type)
    · intro u col hu
      rw [drawPixel_error_type]; exact hu
    · exact ht
  · rfl

theorem storeRegs_error_type (l : List Nat) (s : Chip8) :
    (l.foldl storeReg s).error_type = s.error_type := by
  apply foldl_inv (fun t => t.error_type = s.error_type)
  · intro t r ht
    exact (ramWrite_error_type t t.i (t.v r)).trans ht
  · rfl

theorem loadRegs_error_type (l : List Nat) (s : Chip8) :
    (l.foldl loadReg s).error_type = s.error_type := by
  apply foldl_inv (fun t => t.error_type = s.error_type)
  · intro t r ht; exact ht
  · rfl

theorem FaultOrKeep.ite (t : Chip8) (c : Prop) [Decidable c] (a b : Chip8)
    (ha : FaultOrKeep t a) (hb : FaultOrKeep t b) : FaultOrKeep t (if c then a else b) := by
  split
  · exact ha
  · exact hb

theorem FaultOrKeep.error (t : Chip8) (ty : Chip8_ErrorType) : FaultOrKeep t (error ty t) :=
  Or.inr ⟨ty, rfl⟩

theorem FaultOrKeep.keep (t r : Chip8) (h : r.error_type = t.error_type) : FaultOrKeep t r :=
  Or.inl h

theorem step8_fault_cases (op X Y : Nat) (t : Chip8) : FaultOrKeep t (step8 op X Y t) := by
  unfold step8
  dsimp only
  repeat' first
    | with_reducible first
        | apply FaultOrKeep.ite
        | exact FaultOrKeep.error _ _
        | exact FaultOrKeep.keep _ _ rfl

theorem stepE_fault_cases (X lo : Nat) (t : Chip8) : FaultOrKeep t (stepE X lo t) := by
  unfold stepE
  repeat' first
    | with_reducible first
        | apply FaultOrKeep.ite
        | exact FaultOrKeep.error _ _
        | exact FaultOrKeep.keep _ _ rfl
    | exact FaultOrKeep.keep _ _ rfl

theorem stepF_fault_cases (X lo : Nat) (t : Chip8) : FaultOrKeep t (stepF X lo t) := by
  unfold stepF
  dsimp only
  repeat' first
    | with_reducible first
        | apply FaultOrKeep.ite
        | exact FaultOrKeep.error _ _
        | exact FaultOrKeep.keep _ _ (storeRegs_error_type _ _)
        | exact FaultOrKeep.keep _ _ (loadRegs_error_type _ _)
        | exact FaultOrKeep.keep _ _ rfl
    | exact FaultOrKeep.keep _ _ (((ramWrite_error_type _ _ _).trans
        (ramWrite_error_type _ _ _)).trans (ramWrite_error_type _ _ _))

theorem exec_fault_cases (rnd op : Nat) (t : Chip8) : FaultOrKeep t (exec rnd op t) := by
  unfold exec
  dsimp only
  repeat' first
    | with_reducible first
        | apply FaultOrKeep.ite
        | exact FaultOrKeep.keep _ _ (drawSprite_error_type _ _ _ _)
        | exact step8_fault_cases _ _ _ _
        | exact stepE_fault_cases _ _ _
        | exact stepF_fault_cases _ _ _
        | exact FaultOrKeep.error _ _
        | exact FaultOrKeep.keep _ _ rfl
        | split
    | exact FaultOrKeep.keep _ _ rfl

theorem exec_unmatched (rnd w : Nat) (t : Chip8) (hm : matchesInstruction w = false) :
    exec rnd w t = error Chip8_InvalidOpcode t := by
  simp [matchesInstruction, instructionPatterns, matchesPattern, digitMatches, hexDigit] at hm
  obtain ⟨m00e0, m00ee, m1, m2, m3, m4, m5, m6, m7, m80, m81, m82, m83, m84, m85, m86, m87,
    m8e, m9, ma, mb, mc, md, me9e, mea1, mf07, mf0a, mf15, mf18, mf1e, mf29, mf33, mf55,
    mf65⟩ := hm
  have hhi := and_f000 w
  have hn := and_000f w
  have hlo := and_00ff w
  rcases top_digit_cases (w / 4096 % 16) (Nat.mod_lt _ (by decide)) m1 m2 m3 m4 m6 m7 ma mb mc
    md with ha | ha | ha | ha | ha | ha
  · rw [ha] at hhi
    have n1 : ¬ w = 0x00e0 := by
      intro h; subst h; exact m00e0 (by decide) (by decide) (by decide) (by decide)
    have n2 : ¬ w = 0x00ee := by
      intro h; subst h; exact m00ee (by decide) (by decide) (by decide) (by decide)
    unfold exec
    simp only [hhi]
    norm_num
    rw [if_neg n1, if_neg n2]
  · rw [ha] at hhi
    unfold exec
    simp only [hhi, hn]
    norm_num
    exact fun h0 => absurd h0 (m5 ha)
  · rw [ha] at hhi
    unfold exec
    simp only [hhi]
    norm_num
    unfold step8
    simp only [hn]
    rw [if_neg (m80 ha), if_neg (m81 ha), if_neg (m82 ha), if_neg (m83 ha), if_neg (m84 ha),
      if_neg (m85 ha), if_neg (m86 ha), if_neg (m87 ha), if_neg (m8e ha)]
  · rw [ha] at hhi
    unfold exec
    simp only [hhi, hn]
    norm_num
    exact fun h0 => absurd h0 (m9 ha)
  · rw [ha] at hhi
    unfold exec
    simp only [hhi, hlo]
    norm_num
    unfold stepE
    rw [if_neg (fun h => me9e ha (low_byte_digits w _ h).1 (low_byte_digits w _ h).2),
      if_neg (fun h => mea1 ha (low_byte_digits w _ h).1 (low_byte_digits w _ h).2)]
  · rw [ha] at hhi
    unfold exec
    simp only [hhi, hlo]
    norm_num
    unfold stepF
    rw [if_neg (fun h => mf07 ha (low_byte_digits w _ h).1 (low_byte_digits w _ h).2),
      if_neg (fun h => mf0a ha (low_byte_digits w _ h).1 (low_byte_digits w _ h).2),
      if_neg (fun h => mf15 ha (low_byte_digits w _ h).1 (low_byte_digits w _ h).2),
      if_neg (fun h => mf18 ha (low_byte_digits w _ h).1 (low_byte_digits w _ h).2),
      if_neg (fun h => mf1e ha (low_byte_digits w _ h).1 (low_byte_digits w _ h).2),
      if_neg (fun h => mf29 ha (low_byte_digits w _ h).1 (low_byte_digits w _ h).2),
      if_neg (fun h => mf33 ha (low_byte_digits w _ h).1 (low_byte_digits w _ h).2),
      if_neg (fun h => mf55 ha (low_byte_digits w _ h).1 (low_byte_digits w _ h).2),
      if_neg (fun h => mf65 ha (low_byte_digits w _ h).1 (low_byte_digits w _ h).2)]

/-! ## C1: `step` does nothing while halted or waiting -/

/-- Claim C1: in every state in which a fault is recorded or a key wait is pending, `step` returns
the input state itself, so every field (memory, registers, `i`, `pc`, stack, timers, display,
keys, pending target and fault record) is unchanged. -/
theorem step_unchanged_when_halted_or_waiting (rnd : Nat) (s : Chip8)
    (h : s.error_type ≠ Chip8_NoError ∨ s.awaiting_keypress ≠ none) : step rnd s = s :=
  step_noop rnd s h

/-- Claim C1 at a halted state and at a state waiting for a key. -/
theorem step_unchanged_when_halted_or_waiting_witness :
    (haltedState.error_type ≠ Chip8_NoError ∨ haltedState.awaiting_keypress ≠ none) ∧
    step 0 haltedState = haltedState ∧
    ((step 0 waitState).error_type ≠ Chip8_NoError ∨
      (step 0 waitState).awaiting_keypress ≠ none) ∧
    step 0 (step 0 waitState) = step 0 waitState :=
  ⟨Or.inl (by decide),
    step_unchanged_when_halted_or_waiting 0 haltedState (Or.inl (by decide)),
    Or.inr (by decide),
    step_unchanged_when_halted_or_waiting 0 (step 0 waitState) (Or.inr (by decide))⟩

/-! ## C2: the fault record -/

/-- Claim C2: for a running state with `pc ≤ 0xFFF`, whenever `step` raises a fault the recorded
`error_opcode` is the big-endian word fetched at the pre-step `pc` and `error_addr` is the
pre-step `pc`; a word that matches no instruction pattern raises `Chip8_InvalidOpcode`, and so
does every 5XYN and 9XYN word with `N ≠ 0`. -/
theorem fault_records_fetched_word_and_address (rnd : Nat) (s : Chip8) (hr : Running s)
    (hpc : s.pc ≤ 0xFFF) :
    ((step rnd s).error_type ≠ Chip8_NoError →
      (step rnd s).error_opcode = fetchWord s ∧ (step rnd s).error_addr = s.pc) ∧
    (matchesInstruction (fetchWord s) = false →
      (step rnd s).error_type = Chip8_InvalidOpcode) ∧
    (∀ X Y N : Nat, X < 16 → Y < 16 → N < 16 → N ≠ 0 →
      (fetchWord s = 0x5000 + 0x100 * X + 0x10 * Y + N ∨
        fetchWord s = 0x9000 + 0x100 * X + 0x10 * Y + N) →
      (step rnd s).error_type = Chip8_InvalidOpcode) := by
  rw [step_running rnd s hr]
  refine ⟨?_, ?_, ?_⟩
  · intro hf
    rcases exec_fault_cases rnd (fetchWord s) (advance s) with h | ⟨ty, h⟩
    · exact absurd (h.trans hr.1) hf
    · rw [h]
      exact ⟨(error_record ty s hpc).2.2.1, (error_record ty s hpc).2.1⟩
  · intro hm
    rw [exec_unmatched rnd _ _ hm]
    exact (error_record _ s hpc).1
  · intro X Y N hX hY hN hN0 hw
    rcases hw with hw | hw
    · have hw2 : fetchWord s = 0x1000 * 5 + 0x100 * X + 0x10 * Y + N := by omega
      obtain ⟨h1, -, -, h4, -, -⟩ := decode_word 5 X Y N (by omega) hX hY hN
      rw [hw2]
      unfold exec
      simp [h1, h4, hN0]
      exact (error_record _ s hpc).1
    · have hw2 : fetchWord s = 0x1000 * 9 + 0x100 * X + 0x10 * Y + N := by omega
      obtain ⟨h1, -, -, h4, -, -⟩ := decode_word 9 X Y N (by omega) hX hY hN
      rw [hw2]
      unfold exec
      simp [h1, h4, hN0]
      exact (error_record _ s hpc).1

/-- Claim C2 at the ROM `51 21`: the word `0x5121` matches no pattern, and the fault records the
word `0x5121` at address `0x200` with kind `Chip8_InvalidOpcode`. -/
theorem fault_records_fetched_word_and_address_witness :
    Running badSkipState ∧ badSkipState.pc ≤ 0xFFF ∧
    matchesInstruction (fetchWord badSkipState) = false ∧
    (step 0 badSkipState).error_type = Chip8_InvalidOpcode ∧
    (step 0 badSkipState).error_opcode = 0x5121 ∧
    (step 0 badSkipState).error_addr = 0x200 := by
  have h := fault_records_fetched_word_and_address 0 badSkipState ⟨rfl, rfl⟩ (by decide)
  have h1 := h.2.1 (by decide)
  have h2 := h.1 (by rw [h1]; decide)
  exact ⟨⟨rfl, rfl⟩, by decide, by decide, h1, h2.1.trans (by decide), h2.2.trans (by decide)⟩

/-! ## C3: return with an empty call stack -/

/-- Claim C3, counterexample: with the ROM `00 EE` and an empty call stack, `step` raises the stack
underflow fault and leaves `pc` at `0x202`, not at the address `0x200` of the return
instruction; the claim as stated is false. -/
theorem return_underflow_pc_not_rolled_back :
    ¬ (∀ (rnd : Nat) (s : Chip8), Running s → s.stack = [] → fetchWord s = 0x00EE →
        s.pc ≤ 0xFFF →
        (step rnd s).error_type = Chip8_StackUnderflow ∧ (step rnd s).pc = s.pc) := by
  intro h
  have h1 := (h 0 returnState ⟨rfl, rfl⟩ rfl (by decide) (by decide)).2
  revert h1
  decide

/-- Claim C3, amended: for a running state with an empty call stack and the word `0x00EE` at `pc ≤
0xFFF`, after `step` the fault is `Chip8_StackUnderflow`, `error_addr` is the pre-step `pc` (the
address of the return instruction), `error_opcode` is `0x00EE`, and `pc` is `(pre-step pc + 2)
mod 4096`: the roll-back inside `error` is temporary, its re-fetch advances `pc` again. -/
theorem return_underflow_fault (rnd : Nat) (s : Chip8) (hr : Running s) (hst : s.stack = [])
    (hw : fetchWord s = 0x00EE) (hpc : s.pc ≤ 0xFFF) :
    (step rnd s).error_type = Chip8_StackUnderflow ∧
    (step rnd s).error_addr = s.pc ∧
    (step rnd s).error_opcode = 0x00EE ∧
    (step rnd s).pc = (s.pc + 2) % 4096 := by
  have he : step rnd s = error Chip8_StackUnderflow (advance s) := by
    rw [step_running rnd s hr, hw]
    have hs : (advance s).stack.getLast? = none := by
      show s.stack.getLast? = none
      rw [hst]; rfl
    have h0 : (0x00EE &&& 0xf000) = 0 := by decide
    unfold exec
    simp [hs, h0]
  rw [he]
  have := error_record Chip8_StackUnderflow s hpc
  rw [hw] at this
  exact this

/-- Claim C3, amended, at the ROM `00 EE`. -/
theorem return_underflow_fault_witness :
    Running returnState ∧ returnState.stack = [] ∧ fetchWord returnState = 0x00EE ∧
    returnState.pc ≤ 0xFFF ∧
    (step 0 returnState).error_type = Chip8_StackUnderflow ∧
    (step 0 returnState).error_addr = returnState.pc ∧
    (step 0 returnState).error_opcode = 0x00EE ∧
    (step 0 returnState).pc = (returnState.pc + 2) % 4096 :=
  ⟨⟨rfl, rfl⟩, rfl, by decide, by decide,
    return_underflow_fault 0 returnState ⟨rfl, rfl⟩ rfl (by decide) (by decide)⟩

/-! ## C4: add-reg -/

/-- Claim C4, failing input: the ROM `60 C8 80 04` sets `V0 = 200` and then executes add-reg with `X
= Y = 0`; the code leaves `VF = 0` (and `V0 = 144`) although `200 + 200 > 255`, where the claim
requires `VF = 1`. -/
theorem add_reg_same_register_loses_carry :
    Running (step 0 addSelfProgram) ∧ fetchWord (step 0 addSelfProgram) = 0x8004 ∧
    (step 0 addSelfProgram).v 0 = 200 ∧
    (step 0 addSelfProgram).v 0 + (step 0 addSelfProgram).v 0 > 255 ∧
    (step 0 (step 0 addSelfProgram)).v 0xf = 0 ∧
    (step 0 (step 0 addSelfProgram)).v 0 = 144 := by
  refine ⟨⟨rfl, rfl⟩, ?_, ?_, ?_, ?_, ?_⟩ <;> decide

theorem exec_add_reg (rnd X Y : Nat) (t : Chip8) (hX : X < 16) (hY : Y < 16) :
    exec rnd (0x8004 + 0x100 * X + 0x10 * Y) t =
      { t with v := (setReg (setReg t.v X (t.v X + t.v Y)) 0xf
          (boolToNat (decide (setReg t.v X (t.v X + t.v Y) X < setReg t.v X (t.v X + t.v Y) Y)))) } := by
  have hw : 0x8004 + 0x100 * X + 0x10 * Y = 0x1000 * 8 + 0x100 * X + 0x10 * Y + 4 := by omega
  obtain ⟨h1, h2, h3, h4, -, -⟩ := decode_word 8 X Y 4 (by omega) hX hY (by omega)
  rw [hw]
  unfold exec
  simp only [h1, h2, h3]
  norm_num
  unfold step8
  simp only [h4]
  norm_num

/-- For distinct register indices `X ≠ Y` the add-reg word 8XY4
sets `VF` to the carry of pre-`VX` + pre-`VY`, and `VX` to the sum mod 256 when `X ≠ 15`. -/
theorem add_reg_distinct_registers (rnd : Nat) (s : Chip8) (X Y : Nat) (hr : Running s)
    (hX : X < 16) (hY : Y < 16) (hXY : X ≠ Y) (hvx : s.v X < 256) (hvy : s.v Y < 256)
    (hw : fetchWord s = 0x8004 + 0x100 * X + 0x10 * Y) :
    (step rnd s).v 0xf = (if s.v X + s.v Y > 255 then 1 else 0) ∧
    (X ≠ 15 → (step rnd s).v X = (s.v X + s.v Y) % 256) := by
  rw [step_running rnd s hr, hw, exec_add_reg rnd X Y _ hX hY]
  have hx1 : setReg (advance s).v X ((advance s).v X + (advance s).v Y) X
      = (s.v X + s.v Y) % 256 := setReg_same _ _ _
  have hy1 : setReg (advance s).v X ((advance s).v X + (advance s).v Y) Y = s.v Y :=
    setReg_other _ _ _ _ (Ne.symm hXY)
  constructor
  · show setReg (setReg (advance s).v X ((advance s).v X + (advance s).v Y)) 0xf _ 0xf = _
    rw [setReg_same, hx1, hy1]
    unfold boolToNat
    by_cases h : s.v X + s.v Y > 255
    · have h2 : (s.v X + s.v Y) % 256 < s.v Y := by omega
      simp [h, h2]
    · have h2 : ¬ (s.v X + s.v Y) % 256 < s.v Y := by omega
      simp [h, h2]
  · intro hx15
    show setReg (setReg (advance s).v X ((advance s).v X + (advance s).v Y)) 0xf _ X = _
    rw [setReg_other _ _ _ _ hx15, hx1]

/-- With `X = Y` the add-reg word 8XX4 always leaves `VF = 0`: the overflow test
`x < y` compares the register with itself. -/
theorem add_reg_same_register_flag_zero (rnd : Nat) (s : Chip8) (X : Nat) (hr : Running s)
    (hX : X < 16) (hw : fetchWord s = 0x8004 + 0x100 * X + 0x10 * X) :
    (step rnd s).v 0xf = 0 := by
  rw [step_running rnd s hr, hw, exec_add_reg rnd X X _ hX hX]
  show setReg (setReg (advance s).v X ((advance s).v X + (advance s).v X)) 0xf _ 0xf = _
  rw [setReg_same]
  simp [boolToNat]

/-! ## C5: sub-reg -/

/-- Claim C5: for every running state and all register indices `X`, `Y` below 16 (equal or not, 15
or not), after the sub-reg word 8XY5 the flag `VF` is 1 if pre-`VX` ≥ pre-`VY` and 0 otherwise,
and when `X ≠ 15` the register `VX` is `(pre-VX - pre-VY) mod 256`. -/
theorem sub_reg_flag_and_result (rnd : Nat) (s : Chip8) (X Y : Nat) (hr : Running s)
    (hX : X < 16) (hY : Y < 16) (hw : fetchWord s = 0x8005 + 0x100 * X + 0x10 * Y) :
    (step rnd s).v 0xf = (if s.v X ≥ s.v Y then 1 else 0) ∧
    (X ≠ 15 → ((step rnd s).v X : Int) = ((s.v X : Int) - (s.v Y : Int)) % 256) := by
  have hw2 : fetchWord s = 0x1000 * 8 + 0x100 * X + 0x10 * Y + 5 := by omega
  obtain ⟨h1, h2, h3, h4, -, -⟩ := decode_word 8 X Y 5 (by omega) hX hY (by omega)
  rw [step_running rnd s hr, hw2]
  unfold exec
  simp only [h1, h2, h3]
  norm_num
  unfold step8
  simp only [h4]
  norm_num
  show setReg _ 0xf _ 0xf = _ ∧ (X ≠ 15 → ((setReg _ 0xf _ X : Nat) : Int) = _)
  constructor
  · rw [setReg_same]
    show boolToNat (decide (s.v X ≥ s.v Y)) % 256 = _
    unfold boolToNat
    by_cases h : s.v X ≥ s.v Y <;> simp [h]
  · intro hx
    rw [setReg_other _ _ _ _ hx, setReg_same]
    show (((toU8 ((s.v X : Int) - (s.v Y : Int))) % 256 : Nat) : Int) = _
    unfold toU8
    omega

/-- Claim C5 at `V0 = 3`, `V1 = 10`, word `0x8015`: `V0 = 249` and `VF = 0`. -/
theorem sub_reg_flag_and_result_witness :
    Running subState ∧ (0 : Nat) < 16 ∧ (1 : Nat) < 16 ∧
    fetchWord subState = 0x8005 + 0x100 * 0 + 0x10 * 1 ∧
    subState.v 0 = 3 ∧ subState.v 1 = 10 ∧
    (step 0 subState).v 0xf = 0 ∧ ((step 0 subState).v 0 : Int) = 249 := by
  have h := sub_reg_flag_and_result 0 subState 0 1 ⟨by decide, by decide⟩ (by decide) (by decide)
    (by decide)
  refine ⟨⟨by decide, by decide⟩, by decide, by decide, by decide, by decide, by decide, ?_, ?_⟩
  · rw [h.1]; decide
  · rw [h.2 (by decide)]; decide

/-! ## The draw instruction as a fold over pixels -/

theorem drawPixel_frame (X Y row b : Nat) (u : Chip8) (col : Nat) :
    (drawPixel X Y row b u col).ram = u.ram ∧ (drawPixel X Y row b u col).i = u.i ∧
    (∀ k, k ≠ 15 → (drawPixel X Y row b u col).v k = u.v k) := by
  unfold drawPixel
  dsimp only
  split
  · refine ⟨rfl, rfl, ?_⟩
    intro k hk
    exact setReg_other _ _ _ _ hk
  · exact ⟨rfl, rfl, fun _ _ => rfl⟩

theorem drawPixel_display (X Y row b : Nat) (u : Chip8) (col : Nat) :
    (drawPixel X Y row b u col).display =
      Function.update u.display (cellIndex (u.v X) (u.v Y) row col)
        (xor (u.display (cellIndex (u.v X) (u.v Y) row col)) ((b &&& (0x1 <<< (7 - col))) != 0)) := by
  unfold drawPixel cellIndex
  dsimp only
  split <;> rfl

theorem drawPixel_flag (X Y row b : Nat) (u : Chip8) (col : Nat) :
    (drawPixel X Y row b u col).v 15 =
      if (((b &&& (0x1 <<< (7 - col))) != 0) &&
          u.display (cellIndex (u.v X) (u.v Y) row col)) = true then 1 else u.v 15 := by
  unfold drawPixel cellIndex
  dsimp only
  split
  · show setReg u.v 15 1 15 = 1
    rw [setReg_same]
  · rfl

theorem drawRow_eq_pixels (X Y row : Nat) : ∀ (cs : List Nat) (u : Chip8) (b : Nat),
    b = ramRead u ((u.i + row) &&& 0xfff) →
    cs.foldl (drawPixel X Y row b) u = (cs.map (Prod.mk row)).foldl (drawPixelAt X Y) u := by
  intro cs
  induction cs with
  | nil => intro u b _; rfl
  | cons c cs ih =>
    intro u b hb
    simp only [List.foldl_cons, List.map_cons]
    have h1 : drawPixelAt X Y u (row, c) = drawPixel X Y row b u c := by
      unfold drawPixelAt; rw [hb]
    rw [h1]
    apply ih
    obtain ⟨hr, hi, -⟩ := drawPixel_frame X Y row b u c
    rw [hi, ramRead_mask, hr, ← ramRead_mask u]; exact hb

theorem drawRows_eq_pixels (X Y : Nat) (cs : List Nat) : ∀ (rs : List Nat) (u : Chip8),
    rs.foldl (fun t row => cs.foldl
        (drawPixel X Y row (ramRead t ((t.i + row) &&& 0xfff))) t) u =
      (rs ×ˢ cs).foldl (drawPixelAt X Y) u := by
  intro rs
  induction rs with
  | nil => intro u; rfl
  | cons r rs ih =>
    intro u
    rw [List.product_cons, List.foldl_append, List.foldl_cons, ih,
      drawRow_eq_pixels X Y r cs u _ rfl]

theorem drawSprite_eq_pixels (X Y n : Nat) (s : Chip8) :
    drawSprite X Y n s =
      ((List.range n) ×ˢ (List.range 8)).foldl (drawPixelAt X Y)
        { s with v := setReg s.v 0xf 0 } :=
  drawRows_eq_pixels X Y (List.range 8) (List.range n) _

theorem cellIndex_injective (vx vy r c r2 c2 : Nat) (hr : r < 32) (hc : c < 64) (hr2 : r2 < 32)
    (hc2 : c2 < 64) (h : cellIndex vx vy r c = cellIndex vx vy r2 c2) : r = r2 ∧ c = c2 := by
  unfold cellIndex CHIP8_HEIGHT CHIP8_WIDTH at h
  omega

theorem drawPixels_spec (X Y : Nat) (hX : X ≠ 15) (hY : Y ≠ 15) :
    ∀ (ps : List (Nat × Nat)) (u : Chip8),
    ps.Pairwise (fun p q =>
      cellIndex (u.v X) (u.v Y) p.1 p.2 ≠ cellIndex (u.v X) (u.v Y) q.1 q.2) →
    (ps.foldl (drawPixelAt X Y) u).ram = u.ram ∧
    (ps.foldl (drawPixelAt X Y) u).i = u.i ∧
    (∀ k, k ≠ 15 → (ps.foldl (drawPixelAt X Y) u).v k = u.v k) ∧
    (∀ idx, (ps.foldl (drawPixelAt X Y) u).display idx =
      xor (u.display idx)
        (ps.any (fun p => decide (idx = cellIndex (u.v X) (u.v Y) p.1 p.2) &&
          spriteBit u p.1 p.2))) ∧
    (ps.foldl (drawPixelAt X Y) u).v 15 =
      if ps.any (fun p => spriteBit u p.1 p.2 &&
          u.display (cellIndex (u.v X) (u.v Y) p.1 p.2)) = true then 1 else u.v 15 := by
  intro ps
  induction ps with
  | nil =>
    intro u _
    refine ⟨rfl, rfl, fun _ _ => rfl, ?_, ?_⟩
    · intro idx; simp
    · simp
  | cons p ps ih =>
    intro u hpw
    rw [List.pairwise_cons] at hpw
    obtain ⟨hhead, htail⟩ := hpw
    obtain ⟨f1, f2, f3⟩ := drawPixel_frame X Y p.1 (ramRead u ((u.i + p.1) &&& 0xfff)) u p.2
    have hd := drawPixel_display X Y p.1 (ramRead u ((u.i + p.1) &&& 0xfff)) u p.2
    have hf := drawPixel_flag X Y p.1 (ramRead u ((u.i + p.1) &&& 0xfff)) u p.2
    have e1 : drawPixelAt X Y u p
        = drawPixel X Y p.1 (ramRead u ((u.i + p.1) &&& 0xfff)) u p.2 := rfl
    rw [← e1] at f1 f2 f3 hd hf
    have hvx : (drawPixelAt X Y u p).v X = u.v X := f3 X hX
    have hvy : (drawPixelAt X Y u p).v Y = u.v Y := f3 Y hY
    have hbit : ∀ r c, spriteBit (drawPixelAt X Y u p) r c = spriteBit u r c := by
      intro r c; unfold spriteBit; rw [f2, ramRead_mask, f1, ← ramRead_mask u]
    have htail2 : ps.Pairwise (fun a b =>
        cellIndex ((drawPixelAt X Y u p).v X) ((drawPixelAt X Y u p).v Y) a.1 a.2 ≠
        cellIndex ((drawPixelAt X Y u p).v X) ((drawPixelAt X Y u p).v Y) b.1 b.2) := by
      rw [hvx, hvy]; exact htail
    obtain ⟨i1, i2, i3, i4, i5⟩ := ih (drawPixelAt X Y u p) htail2
    rw [hvx, hvy] at i4 i5
    simp only [List.foldl_cons]
    refine ⟨i1.trans f1, i2.trans f2, fun k hk => (i3 k hk).trans (f3 k hk), ?_, ?_⟩
    · intro idx
      rw [i4 idx, hd, List.any_cons]
      simp only [hbit]
      by_cases hidx : idx = cellIndex (u.v X) (u.v Y) p.1 p.2
      · have hnone : (ps.any fun q =>
            decide (idx = cellIndex (u.v X) (u.v Y) q.1 q.2) && spriteBit u q.1 q.2) = false := by
          rw [List.any_eq_false]
          intro q hq
          have := hhead q hq
          rw [← hidx] at this
          simp [this]
        rw [hnone, hidx]
        simp [spriteBit]
      · rw [Function.update_noteq hidx]
        simp [hidx]
    · rw [i5, hf, List.any_cons]
      have hsame : (ps.any fun q => spriteBit (drawPixelAt X Y u p) q.1 q.2 &&
            (drawPixelAt X Y u p).display (cellIndex (u.v X) (u.v Y) q.1 q.2)) =
          (ps.any fun q => spriteBit u q.1 q.2 &&
            u.display (cellIndex (u.v X) (u.v Y) q.1 q.2)) := by
        rw [Bool.eq_iff_iff, List.any_eq_true, List.any_eq_true]
        constructor
        · rintro ⟨q, hq, h⟩
          refine ⟨q, hq, ?_⟩
          rw [hbit, hd, Function.update_noteq (hhead q hq).symm] at h
          exact h
        · rintro ⟨q, hq, h⟩
          refine ⟨q, hq, ?_⟩
          rw [hbit, hd, Function.update_noteq (hhead q hq).symm]
          exact h
      rw [hsame]
      unfold spriteBit
      generalize (ps.any fun q =>
        ((ramRead u ((u.i + q.1) &&& 0xfff) &&& (0x1 <<< (7 - q.2))) != 0) &&
          u.display (cellIndex (u.v X) (u.v Y) q.1 q.2)) = B
      generalize (((ramRead u ((u.i + p.1) &&& 0xfff) &&& (0x1 <<< (7 - p.2))) != 0) &&
          u.display (cellIndex (u.v X) (u.v Y) p.1 p.2)) = A
      cases A <;> cases B <;> rfl

theorem exec_draw (rnd X Y N : Nat) (t : Chip8) (hX : X < 16) (hY : Y < 16) (hN : N < 16) :
    exec rnd (0xD000 + 0x100 * X + 0x10 * Y + N) t = drawSprite X Y N t := by
  have hw : 0xD000 + 0x100 * X + 0x10 * Y + N = 0x1000 * 13 + 0x100 * X + 0x10 * Y + N := by
    omega
  obtain ⟨h1, h2, h3, h4, -, -⟩ := decode_word 13 X Y N (by omega) hX hY hN
  rw [hw]
  unfold exec
  simp only [h1, h2, h3, h4]
  norm_num

theorem spriteBit_eq_testBit (u : Chip8) (r c : Nat) :
    spriteBit u r c = (u.ram ((u.i + r) % 4096)).testBit (7 - c) := by
  unfold spriteBit ramRead CHIP8_MEMORY
  rw [and_0fff, if_pos (Nat.mod_lt _ (by decide)), and_one_shiftLeft_ne_zero]

theorem sprite_pixels_pairwise (vx vy N : Nat) (hN : N < 16) :
    ((List.range N) ×ˢ (List.range 8)).Pairwise (fun p q =>
      cellIndex vx vy p.1 p.2 ≠ cellIndex vx vy q.1 q.2) := by
  have hnd : ((List.range N) ×ˢ (List.range 8)).Nodup :=
    List.Nodup.product (List.nodup_range N) (List.nodup_range 8)
  refine List.Pairwise.imp_of_mem ?_ hnd
  intro p q hp hq hne heq
  rw [List.mem_product, List.mem_range, List.mem_range] at hp hq
  obtain ⟨e1, e2⟩ := cellIndex_injective vx vy p.1 p.2 q.1 q.2 (by omega) (by omega) (by omega)
    (by omega) heq
  exact hne (Prod.ext e1 e2)

theorem drawPixel_awaiting (X Y row b : Nat) (s : Chip8) (col : Nat) :
    (drawPixel X Y row b s col).awaiting_keypress = s.awaiting_keypress := by
  unfold drawPixel
  dsimp only
  split <;> rfl

theorem drawSprite_awaiting (X Y n : Nat) (s : Chip8) :
    (drawSprite X Y n s).awaiting_keypress = s.awaiting_keypress := by
  unfold drawSprite
  apply foldl_inv (fun t => t.awaiting_keypress = s.awaiting_keypress)
  · intro t row ht
    unfold drawRow
    apply foldl_inv (fun u => u.awaiting_keypress = s.awaiting_keypress)
    · intro u col hu
      rw [drawPixel_awaiting]; exact hu
    · exact ht
  · rfl

theorem step_draw_spec (rnd : Nat) (s : Chip8) (X Y N : Nat) (hr : Running s)
    (hX : X < 16) (hY : Y < 16) (hN : N < 16) (hX15 : X ≠ 15) (hY15 : Y ≠ 15)
    (hw : fetchWord s = 0xD000 + 0x100 * X + 0x10 * Y + N) :
    Running (step rnd s) ∧ (step rnd s).ram = s.ram ∧ (step rnd s).i = s.i ∧
    (∀ k, k ≠ 15 → (step rnd s).v k = s.v k) ∧
    (∀ idx, (step rnd s).display idx = xor (s.display idx) (spriteHits s X Y N idx)) ∧
    (step rnd s).v 15 =
      if ((List.range N) ×ˢ (List.range 8)).any (fun p => spriteBit s p.1 p.2 &&
          s.display (cellIndex (s.v X) (s.v Y) p.1 p.2)) = true then 1 else 0 := by
  rw [step_running rnd s hr, hw, exec_draw rnd X Y N _ hX hY hN]
  have hrun : Running (drawSprite X Y N (advance s)) :=
    ⟨(drawSprite_error_type X Y N _).trans hr.1, (drawSprite_awaiting X Y N _).trans hr.2⟩
  rw [drawSprite_eq_pixels] at hrun ⊢
  generalize hu : ({ advance s with v := setReg (advance s).v 0xf 0 } : Chip8) = u at hrun ⊢
  have hux : u.v X = s.v X := by rw [← hu]; exact setReg_other _ _ _ _ hX15
  have huy : u.v Y = s.v Y := by rw [← hu]; exact setReg_other _ _ _ _ hY15
  have huv : ∀ k, k ≠ 15 → u.v k = s.v k := by
    intro k hk; rw [← hu]; exact setReg_other _ _ _ _ hk
  have huf : u.v 15 = 0 := by
    rw [← hu]
    show setReg (advance s).v 15 0 15 = 0
    rw [setReg_same]
  have hud : u.display = s.display := by rw [← hu]; rfl
  have hur : u.ram = s.ram := by rw [← hu]; rfl
  have hui : u.i = s.i := by rw [← hu]; rfl
  have hbit : ∀ r c, spriteBit u r c = spriteBit s r c := by
    intro r c; unfold spriteBit; rw [hui, ramRead_mask, hur, ← ramRead_mask s]
  obtain ⟨i1, i2, i3, i4, i5⟩ := drawPixels_spec X Y hX15 hY15 _ u
    (sprite_pixels_pairwise (u.v X) (u.v Y) N hN)
  rw [hux, huy] at i4 i5
  simp only [hbit, hud, huf] at i4 i5
  exact ⟨hrun, i1.trans hur, i2.trans hui, fun k hk => (i3 k hk).trans (huv k hk), i4, i5⟩

theorem spriteHits_congr (s t : Chip8) (X Y n idx : Nat) (hram : t.ram = s.ram) (hi : t.i = s.i)
    (hx : t.v X = s.v X) (hy : t.v Y = s.v Y) :
    spriteHits t X Y n idx = spriteHits s X Y n idx := by
  unfold spriteHits spriteBit
  simp only [ramRead_mask, hram, hi, hx, hy]

/-! ## C6: drawing twice -/

/-- Claim C6, failing input: the ROM `A2 06 DF 01 DF 01 C0` points `I` at the sprite byte `0xC0` and
executes the draw `DF01` (`X = 15`, `Y = 0`, one row) twice on a blank display, with the same
`I`, memory and operand registers before both draws; after the second draw cell 2 of row 0 is
lit, so the display is not the one before the first draw. -/
theorem draw_twice_with_flag_operand_not_restored :
    Running (step 0 drawTwiceProgram) ∧
    fetchWord (step 0 drawTwiceProgram) = 0xDF01 ∧
    Running (step 0 (step 0 drawTwiceProgram)) ∧
    fetchWord (step 0 (step 0 drawTwiceProgram)) = 0xDF01 ∧
    (step 0 (step 0 drawTwiceProgram)).i = (step 0 drawTwiceProgram).i ∧
    (step 0 (step 0 drawTwiceProgram)).v 0xf = (step 0 drawTwiceProgram).v 0xf ∧
    (step 0 (step 0 drawTwiceProgram)).v 0 = (step 0 drawTwiceProgram).v 0 ∧
    (step 0 (step 0 drawTwiceProgram)).ram 0x206 = (step 0 drawTwiceProgram).ram 0x206 ∧
    (step 0 drawTwiceProgram).display 2 = false ∧
    (step 0 (step 0 (step 0 drawTwiceProgram))).display 2 = true ∧
    (step 0 (step 0 (step 0 drawTwiceProgram))).display ≠ (step 0 drawTwiceProgram).display := by
  have h1 : (step 0 drawTwiceProgram).display 2 = false := by decide
  have h2 : (step 0 (step 0 (step 0 drawTwiceProgram))).display 2 = true := by decide
  refine ⟨⟨rfl, rfl⟩, by decide, ⟨rfl, rfl⟩, by decide, by decide, by decide, by decide,
    by decide, h1, h2, ?_⟩
  intro h
  rw [h, h1] at h2
  exact absurd h2 (by decide)

/-- When neither operand register of the draw word is `VF`,
executing the same draw word twice in succession restores the display. -/
theorem draw_twice_restores_display (rnd1 rnd2 : Nat) (s : Chip8) (X Y N : Nat) (hr : Running s)
    (hX : X < 16) (hY : Y < 16) (hN : N < 16) (hX15 : X ≠ 15) (hY15 : Y ≠ 15)
    (hw : fetchWord s = 0xD000 + 0x100 * X + 0x10 * Y + N)
    (hw2 : fetchWord (step rnd1 s) = 0xD000 + 0x100 * X + 0x10 * Y + N) :
    (step rnd2 (step rnd1 s)).display = s.display := by
  obtain ⟨r1, m1, a1, v1, d1, -⟩ := step_draw_spec rnd1 s X Y N hr hX hY hN hX15 hY15 hw
  obtain ⟨-, -, -, -, d2, -⟩ := step_draw_spec rnd2 (step rnd1 s) X Y N r1 hX hY hN hX15 hY15 hw2
  funext idx
  rw [d2 idx, d1 idx, spriteHits_congr s (step rnd1 s) X Y N idx m1 a1 (v1 X hX15) (v1 Y hY15)]
  cases s.display idx <;> cases spriteHits s X Y N idx <;> rfl

/-! ## C7: draw-sprite -/

/-- Claim C7: for a running state and a draw word DXYN with `X ≠ 15` and `Y ≠ 15`, every cell at row
`(VY + r) mod 32`, column `(VX + c) mod 64` with `r < N`, `c < 8` becomes its previous value XOR
bit `7 - c` of `ram[(I + r) mod 4096]`, every other cell is unchanged, and `VF` is 1 if some set
sprite bit lands on a cell lit before the draw and 0 otherwise. The sprite address is reduced
mod 4096, so no bound on `I` is needed. -/
theorem draw_sprite_xor_wrap_collision (rnd : Nat) (s : Chip8) (X Y N : Nat) (hr : Running s)
    (hX : X < 16) (hY : Y < 16) (hN : N < 16) (hX15 : X ≠ 15) (hY15 : Y ≠ 15)
    (hw : fetchWord s = 0xD000 + 0x100 * X + 0x10 * Y + N) :
    (∀ r c, r < N → c < 8 →
      (step rnd s).display ((s.v Y + r) % 32 * 64 + (s.v X + c) % 64) =
        xor (s.display ((s.v Y + r) % 32 * 64 + (s.v X + c) % 64))
          ((s.ram ((s.i + r) % 4096)).testBit (7 - c))) ∧
    (∀ idx, (∀ r c, r < N → c < 8 → idx ≠ (s.v Y + r) % 32 * 64 + (s.v X + c) % 64) →
      (step rnd s).display idx = s.display idx) ∧
    ((∃ r c, r < N ∧ c < 8 ∧ (s.ram ((s.i + r) % 4096)).testBit (7 - c) = true ∧
        s.display ((s.v Y + r) % 32 * 64 + (s.v X + c) % 64) = true) →
      (step rnd s).v 0xf = 1) ∧
    ((¬ ∃ r c, r < N ∧ c < 8 ∧ (s.ram ((s.i + r) % 4096)).testBit (7 - c) = true ∧
        s.display ((s.v Y + r) % 32 * 64 + (s.v X + c) % 64) = true) →
      (step rnd s).v 0xf = 0) := by
  obtain ⟨-, -, -, -, i4, i5⟩ := step_draw_spec rnd s X Y N hr hX hY hN hX15 hY15 hw
  have hcell : ∀ r c, cellIndex (s.v X) (s.v Y) r c
      = (s.v Y + r) % 32 * 64 + (s.v X + c) % 64 := fun _ _ => rfl
  unfold spriteHits at i4
  simp only [spriteBit_eq_testBit] at i4 i5
  refine ⟨?_, ?_, ?_, ?_⟩
  · intro r c hrN hc
    rw [i4, ← hcell]
    congr 1
    rw [Bool.eq_iff_iff, List.any_eq_true]
    constructor
    · rintro ⟨q, hq, h⟩
      rw [List.mem_product, List.mem_range, List.mem_range] at hq
      rw [Bool.and_eq_true, decide_eq_true_eq] at h
      obtain ⟨e1, e2⟩ := cellIndex_injective _ _ r c q.1 q.2 (by omega) (by omega) (by omega)
        (by omega) h.1
      rw [e1, e2]; exact h.2
    · intro h
      refine ⟨(r, c), ?_, ?_⟩
      · rw [List.mem_product, List.mem_range, List.mem_range]; exact ⟨hrN, hc⟩
      · simp [h]
  · intro idx hidx
    rw [i4]
    have hnone : (((List.range N) ×ˢ (List.range 8)).any fun p =>
        decide (idx = cellIndex (s.v X) (s.v Y) p.1 p.2) &&
          (s.ram ((s.i + p.1) % 4096)).testBit (7 - p.2)) = false := by
      rw [List.any_eq_false]
      intro q hq
      rw [List.mem_product, List.mem_range, List.mem_range] at hq
      have := hidx q.1 q.2 hq.1 hq.2
      rw [← hcell] at this
      simp [this]
    rw [hnone]; simp
  · rintro ⟨r, c, hrN, hc, hb, hl⟩
    rw [i5, if_pos]
    rw [List.any_eq_true]
    refine ⟨(r, c), ?_, ?_⟩
    · rw [List.mem_product, List.mem_range, List.mem_range]; exact ⟨hrN, hc⟩
    · rw [← hcell] at hl
      simp [hb, hl]
  · intro hno
    rw [i5, if_neg]
    rw [List.any_eq_true]
    rintro ⟨q, hq, h⟩
    rw [List.mem_product, List.mem_range, List.mem_range] at hq
    rw [Bool.and_eq_true] at h
    exact hno ⟨q.1, q.2, hq.1, hq.2, h.1, h.2⟩

/-- Claim C7 at the byte `0xFF` drawn at column 60 of row 0 of a blank display: columns 60, 61, 62,
63, 0, 1, 2, 3 of row 0 are lit, nothing else, and `VF = 0`. -/
theorem draw_sprite_xor_wrap_collision_witness :
    Running wrapDrawState ∧ fetchWord wrapDrawState = 0xD000 + 0x100 * 0 + 0x10 * 1 + 1 ∧
    wrapDrawState.v 0 = 60 ∧ wrapDrawState.v 1 = 0 ∧
    wrapDrawState.ram wrapDrawState.i = 0xFF ∧
    (∀ c, c < 8 → (step 0 wrapDrawState).display ((60 + c) % 64) = true) ∧
    (∀ idx, (∀ c, c < 8 → idx ≠ (60 + c) % 64) → (step 0 wrapDrawState).display idx = false) ∧
    (step 0 wrapDrawState).v 0xf = 0 := by
  have h := draw_sprite_xor_wrap_collision 0 wrapDrawState 0 1 1 ⟨by decide, by decide⟩
    (by decide) (by decide) (by decide) (by decide) (by decide) (by decide)
  have hblank : ∀ idx, wrapDrawState.display idx = false := fun _ => rfl
  refine ⟨⟨by decide, by decide⟩, by decide, by decide, by decide, by decide, ?_, ?_, ?_⟩
  · intro c hc
    have h1 := h.1 0 c (by decide) hc
    have e : (wrapDrawState.v 1 + 0) % 32 * 64 + (wrapDrawState.v 0 + c) % 64 = (60 + c) % 64 := by
      have a1 : wrapDrawState.v 1 = 0 := by decide
      have a0 : wrapDrawState.v 0 = 60 := by decide
      rw [a1, a0]; omega
    rw [e] at h1
    rw [h1, hblank]
    have hb : wrapDrawState.ram ((wrapDrawState.i + 0) % 4096) = 0xFF := by decide
    rw [hb]
    interval_cases c <;> decide
  · intro idx hidx
    have h2 := h.2.1 idx (by
      intro r c hr hc
      have hr0 : r = 0 := by omega
      subst hr0
      have a1 : wrapDrawState.v 1 = 0 := by decide
      have a0 : wrapDrawState.v 0 = 60 := by decide
      rw [a1, a0]
      have := hidx c hc
      omega)
    rw [h2]; exact hblank idx
  · apply h.2.2.2
    rintro ⟨r, c, -, -, -, hl⟩
    rw [hblank] at hl
    exact absurd hl (by decide)

/-! ## C8: wait-key -/

theorem exec_wait_key (rnd X : Nat) (t : Chip8) (hX : X < 16) :
    exec rnd (0xF00A + 0x100 * X) t = { t with awaiting_keypress := some X } := by
  have hw : 0xF00A + 0x100 * X = 0x1000 * 15 + 0x100 * X + 0x10 * 0 + 10 := by omega
  obtain ⟨h1, h2, -, -, h5, -⟩ := decode_word 15 X 0 10 (by omega) hX (by omega) (by omega)
  rw [hw]
  unfold exec
  simp only [h1, h2, h5]
  norm_num
  unfold stepF
  norm_num

/-- Claim C8, counterexample: the ROM `60 F5 61 0A AF FE F1 55 1F FE` reaches in five steps the
running state with `pc = 0xFFE` and the word `F50A` at `pc`; there `step` leaves `pc = 0`, not
`0xFFE + 2`, so the claim as stated is false. -/
theorem wait_key_pc_wraps :
    ¬ (∀ (rnd : Nat) (s : Chip8) (X : Nat), Running s → X < 16 →
        fetchWord s = 0xF00A + 0x100 * X →
        (step rnd s).awaiting_keypress = some X ∧ (step rnd s).pc = s.pc + 2) := by
  intro h
  have h1 := (h 0 wrapWaitState 5 ⟨by decide, by decide⟩ (by decide) (by decide)).2
  revert h1
  decide

/-- Claim C8, amended: for a running state with the word FX0A at `pc`, after `step` the pending
target is register `X`, `pc` is `(pre-step pc + 2) mod 4096`, and registers and keys are as
before whatever keys are held; any number of further `step` calls changes nothing; then
`key_down k` with `k < 16` sets `VX = k` and `keys[k]`, clears the pending target, and changes
neither `pc`, nor memory, nor another register; and the following `step` executes the word at
`(pre-step pc + 2) mod 4096`. -/
theorem wait_key_protocol (rnd rnd2 : Nat) (rnds : Nat → Nat) (n k X : Nat) (s : Chip8)
    (hr : Running s) (hX : X < 16) (hk : k < 16) (hw : fetchWord s = 0xF00A + 0x100 * X) :
    ((step rnd s).awaiting_keypress = some X ∧ (step rnd s).pc = (s.pc + 2) % 4096 ∧
      (step rnd s).v = s.v ∧ (step rnd s).keys = s.keys ∧
      (step rnd s).error_type = Chip8_NoError) ∧
    stepN rnds n (step rnd s) = step rnd s ∧
    ((key_down k (stepN rnds n (step rnd s))).v X = k ∧
      (∀ j, j ≠ X → (key_down k (stepN rnds n (step rnd s))).v j = s.v j) ∧
      (key_down k (stepN rnds n (step rnd s))).keys k = true ∧
      (key_down k (stepN rnds n (step rnd s))).awaiting_keypress = none ∧
      (key_down k (stepN rnds n (step rnd s))).pc = (s.pc + 2) % 4096 ∧
      (key_down k (stepN rnds n (step rnd s))).ram = s.ram) ∧
    (Running (key_down k (stepN rnds n (step rnd s))) ∧
      step rnd2 (key_down k (stepN rnds n (step rnd s))) =
        exec rnd2 (fetchWord { s with pc := (s.pc + 2) % 4096 })
          (advance (key_down k (stepN rnds n (step rnd s))))) := by
  have e1 : step rnd s = { advance s with awaiting_keypress := some X } := by
    rw [step_running rnd s hr, hw, exec_wait_key rnd X _ hX]
  have hN : stepN rnds n (step rnd s) = step rnd s := by
    apply stepN_noop
    right
    rw [e1]
    simp
  have e2 : key_down k (stepN rnds n (step rnd s)) =
      { advance s with
        keys := Function.update s.keys k true, v := setReg s.v X k, awaiting_keypress := none } := by
    rw [hN, e1]
    simp only [key_down, if_pos hk]
    rfl
  have hrun : Running (key_down k (stepN rnds n (step rnd s))) := by
    rw [e2]; exact ⟨hr.1, rfl⟩
  refine ⟨⟨?_, ?_, ?_, ?_, ?_⟩, hN, ⟨?_, ?_, ?_, ?_, ?_, ?_⟩, hrun, ?_⟩
  · rw [e1]
  · rw [e1]; exact advance_pc s
  · rw [e1]; rfl
  · rw [e1]; rfl
  · rw [e1]; exact hr.1
  · rw [e2]
    show setReg s.v X k X = k
    rw [setReg_same]; omega
  · intro j hj
    rw [e2]
    exact setReg_other _ _ _ _ hj
  · rw [e2]
    show Function.update s.keys k true k = true
    simp
  · rw [e2]
  · rw [e2]; exact advance_pc s
  · rw [e2]; rfl
  · rw [step_running rnd2 _ hrun]
    congr 1
    rw [e2]
    exact fetchWord_congr _ _ rfl (advance_pc s) (Nat.mod_lt _ (by decide))

/-- Claim C8, amended, at the ROM `F5 0A`: five further steps change nothing, then `key_down 7`
leaves `V5 = 7` and `pc = 0x202`. -/
theorem wait_key_protocol_witness :
    Running waitState ∧ (5 : Nat) < 16 ∧ (7 : Nat) < 16 ∧
    fetchWord waitState = 0xF00A + 0x100 * 5 ∧
    (step 0 waitState).awaiting_keypress = some 5 ∧
    stepN (fun _ => 0) 5 (step 0 waitState) = step 0 waitState ∧
    (key_down 7 (stepN (fun _ => 0) 5 (step 0 waitState))).v 5 = 7 ∧
    (key_down 7 (stepN (fun _ => 0) 5 (step 0 waitState))).pc = 0x202 := by
  have h := wait_key_protocol 0 0 (fun _ => 0) 5 7 5 waitState ⟨rfl, rfl⟩ (by decide)
    (by decide) (by decide)
  exact ⟨⟨rfl, rfl⟩, by decide, by decide, by decide, h.1.1, h.2.1, h.2.2.1.1,
    h.2.2.1.2.2.2.2.1⟩

/-! ## C9: font-addr -/

theorem load_default_font_intact (s : Chip8) : FontIntact (load_default_font s) := by
  intro a ha
  simp only [load_default_font, if_pos ha]

theorem load_program_intact (bytes : List Nat) (s : Chip8) (h : FontIntact s) :
    FontIntact (load_program bytes s) := by
  intro a ha
  have h80 : a < 80 := ha
  have : ¬ (CHIP8_PROGRAM_START ≤ a ∧ a < CHIP8_PROGRAM_START + bytes.length) := by
    unfold CHIP8_PROGRAM_START; omega
  simp only [load_program, if_neg this]
  exact h a ha

theorem font_table_glyph : ∀ d : Fin 16,
    (List.range 5).map (fun j => CHIP8_FONT.getD (5 * d.val + j) 0) = glyph d.val := by
  decide

theorem exec_font_addr (rnd X : Nat) (t : Chip8) (hX : X < 16) :
    exec rnd (0xF029 + 0x100 * X) t =
      if (t.v X &&& 0xf0) ≠ 0 then error Chip8_InvalidHexDigit t
      else { t with i := (t.v X * CHIP8_FONT_HEIGHT) % 65536 } := by
  have hw : 0xF029 + 0x100 * X = 0x1000 * 15 + 0x100 * X + 0x10 * 2 + 9 := by omega
  obtain ⟨h1, h2, -, -, h5, -⟩ := decode_word 15 X 2 9 (by omega) hX (by omega) (by omega)
  rw [hw]
  unfold exec
  simp only [h1, h2, h5]
  norm_num
  unfold stepF
  norm_num

theorem fontState_intact : FontIntact fontState ∧ FontIntact fontFaultState := by
  constructor <;> exact load_program_intact _ _ (load_default_font_intact _)

/-- Claim C9: on a running state whose font area is as `load_default_font` left it, the word FX29
with `VX = d ≤ 15` sets `i = 5 * d` without a fault, and the five bytes of memory from `5 * d`
are the glyph of digit `d` in `CHIP8_FONT`; with `VX > 15` it raises `Chip8_InvalidHexDigit` and
leaves `i` unchanged. -/
theorem font_addr_points_to_glyph (rnd : Nat) (s : Chip8) (X : Nat) (hr : Running s)
    (hX : X < 16) (hw : fetchWord s = 0xF029 + 0x100 * X) (hfont : FontIntact s)
    (hv : s.v X < 256) :
    (s.v X ≤ 15 →
      (step rnd s).error_type = Chip8_NoError ∧
      (step rnd s).i = 5 * s.v X ∧
      (List.range 5).map (fun j => ramRead (step rnd s) (5 * s.v X + j)) = glyph (s.v X)) ∧
    (s.v X > 15 →
      (step rnd s).error_type = Chip8_InvalidHexDigit ∧ (step rnd s).i = s.i) := by
  rw [step_running rnd s hr, hw, exec_font_addr rnd X _ hX]
  have hvx : (advance s).v X = s.v X := rfl
  rw [hvx]
  constructor
  · intro hd
    have h0 : ¬ ((s.v X &&& 0xf0) ≠ 0) := by
      rw [not_not]; exact (high_nibble_zero_iff _ hv).2 hd
    rw [if_neg h0]
    refine ⟨hr.1, ?_, ?_⟩
    · show (s.v X * CHIP8_FONT_HEIGHT) % 65536 = _
      unfold CHIP8_FONT_HEIGHT; omega
    · show (List.range 5).map (fun j => ramRead s (5 * s.v X + j)) = _
      have hg := font_table_glyph ⟨s.v X, by omega⟩
      rw [← hg]
      apply List.map_congr_left
      intro j hj
      have hj5 : j < 5 := List.mem_range.1 hj
      have hlt : 5 * s.v X + j < 80 := by omega
      have hmem : 5 * s.v X + j < CHIP8_MEMORY := by unfold CHIP8_MEMORY; omega
      show ramRead s (5 * s.v X + j) = _
      unfold ramRead
      rw [if_pos hmem]
      exact hfont _ hlt
  · intro hd
    have h0 : (s.v X &&& 0xf0) ≠ 0 := by
      intro h; have := (high_nibble_zero_iff _ hv).1 h; omega
    rw [if_pos h0]
    exact ⟨rfl, rfl⟩

/-- Claim C9 at `V3 = 0xA` (glyph at 50) and at `V3 = 0x10` (fault). -/
theorem font_addr_points_to_glyph_witness :
    Running fontState ∧ (3 : Nat) < 16 ∧ fetchWord fontState = 0xF029 + 0x100 * 3 ∧
    FontIntact fontState ∧ fontState.v 3 = 0xA ∧
    (step 0 fontState).i = 50 ∧
    (List.range 5).map (fun j => ramRead (step 0 fontState) (5 * fontState.v 3 + j)) =
      [0xF0, 0x90, 0xF0, 0x90, 0x90] ∧
    fontFaultState.v 3 = 0x10 ∧
    (step 0 fontFaultState).error_type = Chip8_InvalidHexDigit ∧
    (step 0 fontFaultState).i = fontFaultState.i := by
  have h := (font_addr_points_to_glyph 0 fontState 3 ⟨by decide, by decide⟩ (by decide)
    (by decide) fontState_intact.1 (by decide)).1 (by decide)
  have h2 := (font_addr_points_to_glyph 0 fontFaultState 3 ⟨by decide, by decide⟩ (by decide)
    (by decide) fontState_intact.2 (by decide)).2 (by decide)
  exact ⟨⟨by decide, by decide⟩, by decide, by decide, fontState_intact.1, by decide, h.2.1,
    h.2.2, by decide, h2.1, h2.2⟩

/-! ## C10: load-imm then add-imm -/

theorem exec_load_imm (rnd X lo : Nat) (t : Chip8) (hX : X < 16) (hlo : lo < 256) :
    exec rnd (0x6000 + 0x100 * X + lo) t = { t with v := setReg t.v X lo } := by
  have hw : 0x6000 + 0x100 * X + lo = 0x1000 * 6 + 0x100 * X + 0x10 * (lo / 16) + lo % 16 := by
    omega
  obtain ⟨h1, h2, -, -, h5, -⟩ := decode_word 6 X (lo / 16) (lo % 16) (by omega) hX (by omega)
    (by omega)
  rw [hw]
  unfold exec
  simp only [h1, h2, h5]
  have : 0x10 * (lo / 16) + lo % 16 = lo := by omega
  rw [this]
  norm_num

theorem exec_add_imm (rnd X lo : Nat) (t : Chip8) (hX : X < 16) (hlo : lo < 256) :
    exec rnd (0x7000 + 0x100 * X + lo) t = { t with v := setReg t.v X (t.v X + lo) } := by
  have hw : 0x7000 + 0x100 * X + lo = 0x1000 * 7 + 0x100 * X + 0x10 * (lo / 16) + lo % 16 := by
    omega
  obtain ⟨h1, h2, -, -, h5, -⟩ := decode_word 7 X (lo / 16) (lo % 16) (by omega) hX (by omega)
    (by omega)
  rw [hw]
  unfold exec
  simp only [h1, h2, h5]
  have : 0x10 * (lo / 16) + lo % 16 = lo := by omega
  rw [this]
  norm_num

theorem immProgram_ram (font : Bool) (X a b : Nat) (hX : X < 16) (ha : a < 256) (hb : b < 256) :
    (immProgram font X a b).ram 0x200 = 0x60 + X ∧ (immProgram font X a b).ram 0x201 = a ∧
    (immProgram font X a b).ram 0x202 = 0x70 + X ∧ (immProgram font X a b).ram 0x203 = b := by
  have e6 : 0x60 ||| X = 0x60 + X := or_low_nibble 6 X hX
  have e7 : 0x70 ||| X = 0x70 + X := or_low_nibble 7 X hX
  simp only [immProgram, load_program, CHIP8_PROGRAM_START, e6, e7]
  refine ⟨?_, ?_, ?_, ?_⟩ <;> norm_num <;> omega

theorem step_load_imm (rnd X lo : Nat) (s : Chip8) (hr : Running s) (hX : X < 16)
    (hlo : lo < 256) (hw : fetchWord s = 0x6000 + 0x100 * X + lo) :
    step rnd s = { advance s with v := setReg s.v X lo } := by
  rw [step_running _ _ hr, hw, exec_load_imm _ _ _ _ hX hlo]
  rfl

theorem step_add_imm (rnd X lo : Nat) (s : Chip8) (hr : Running s) (hX : X < 16)
    (hlo : lo < 256) (hw : fetchWord s = 0x7000 + 0x100 * X + lo) :
    step rnd s = { advance s with v := setReg s.v X (s.v X + lo) } := by
  rw [step_running _ _ hr, hw, exec_add_imm _ _ _ _ hX hlo]
  rfl

theorem load_then_add_general (r1 r2 X a b : Nat) (s : Chip8) (hr : Running s) (hX : X < 16)
    (ha : a < 256) (hb : b < 256) (hpc : s.pc = 0x200)
    (m0 : s.ram 0x200 = 0x60 + X) (m1 : s.ram 0x201 = a)
    (m2 : s.ram 0x202 = 0x70 + X) (m3 : s.ram 0x203 = b) :
    (step r2 (step r1 s)).v = setReg (setReg s.v X a) X (a + b) ∧
    (step r2 (step r1 s)).pc = 0x204 ∧
    (step r2 (step r1 s)).error_type = Chip8_NoError ∧
    (step r2 (step r1 s)).awaiting_keypress = none := by
  have w1 : fetchWord s = 0x6000 + 0x100 * X + a := by
    rw [fetchWord_bytes s (0x60 + X) a (by rw [hpc]; decide) (by rw [hpc]; exact m0)
      (by rw [hpc]; exact m1) (by omega) ha]
    omega
  have e1 := step_load_imm r1 X a s hr hX ha w1
  have hv1 : (step r1 s).v = setReg s.v X a := by rw [e1]
  have hram1 : (step r1 s).ram = s.ram := by rw [e1]; rfl
  have hpc1 : (step r1 s).pc = 0x202 := by
    rw [e1]
    show (advance s).pc = _
    rw [advance_pc, hpc]
  have hr1 : Running (step r1 s) := by rw [e1]; exact hr
  have w2 : fetchWord (step r1 s) = 0x7000 + 0x100 * X + b := by
    rw [fetchWord_bytes (step r1 s) (0x70 + X) b (by rw [hpc1]; decide)
      (by rw [hpc1, hram1]; exact m2) (by rw [hpc1, hram1]; exact m3) (by omega) hb]
    omega
  have e2 := step_add_imm r2 X b (step r1 s) hr1 hX hb w2
  refine ⟨?_, ?_, ?_, ?_⟩
  · rw [e2]
    show setReg (step r1 s).v X ((step r1 s).v X + b) = _
    rw [hv1, setReg_same]
    unfold setReg
    rw [Nat.mod_eq_of_lt ha]
  · rw [e2]
    show (advance (step r1 s)).pc = _
    rw [advance_pc, hpc1]
  · rw [e2]; exact hr1.1
  · rw [e2]; exact hr1.2

/-- Claim C10: from the freshly constructed state (font loaded or not) with the program bytes
`[0x60|X, a, 0x70|X, b]` at `0x200`, two `step` calls leave `VX = (a + b) mod 256`, `pc =
0x204`, no fault, no pending key, and every other register unchanged. -/
theorem load_imm_then_add_imm (font : Bool) (r1 r2 X a b : Nat) (hX : X < 16) (ha : a < 256)
    (hb : b < 256) :
    (step r2 (step r1 (immProgram font X a b))).v X = (a + b) % 256 ∧
    (step r2 (step r1 (immProgram font X a b))).pc = 0x204 ∧
    (step r2 (step r1 (immProgram font X a b))).error_type = Chip8_NoError ∧
    (step r2 (step r1 (immProgram font X a b))).awaiting_keypress = none ∧
    (∀ k, k ≠ X →
      (step r2 (step r1 (immProgram font X a b))).v k = (immProgram font X a b).v k) := by
  obtain ⟨m0, m1, m2, m3⟩ := immProgram_ram font X a b hX ha hb
  have hpc : (immProgram font X a b).pc = 0x200 := by cases font <;> rfl
  have hr : Running (immProgram font X a b) := by cases font <;> exact ⟨rfl, rfl⟩
  obtain ⟨g1, g2, g3, g4⟩ :=
    load_then_add_general r1 r2 X a b _ hr hX ha hb hpc m0 m1 m2 m3
  refine ⟨?_, g2, g3, g4, ?_⟩
  · rw [g1, setReg_same]
  · intro k hk
    rw [g1, setReg_other _ _ _ _ hk, setReg_other _ _ _ _ hk]

/-- Claim C10 at the program `60 05 70 03`: `V0 = 8`, `pc = 0x204`, no fault. -/
theorem load_imm_then_add_imm_witness :
    (0 : Nat) < 16 ∧ (0x05 : Nat) < 256 ∧ (0x03 : Nat) < 256 ∧
    (immProgram true 0 0x05 0x03).ram 0x200 = 0x60 ∧
    (immProgram true 0 0x05 0x03).ram 0x201 = 0x05 ∧
    (immProgram true 0 0x05 0x03).ram 0x202 = 0x70 ∧
    (immProgram true 0 0x05 0x03).ram 0x203 = 0x03 ∧
    (step 0 (step 0 (immProgram true 0 0x05 0x03))).v 0 = 8 ∧
    (step 0 (step 0 (immProgram true 0 0x05 0x03))).pc = 0x204 ∧
    (step 0 (step 0 (immProgram true 0 0x05 0x03))).error_type = Chip8_NoError := by
  have h := load_imm_then_add_imm true 0 0 0 0x05 0x03 (by decide) (by decide) (by decide)
  exact ⟨by decide, by decide, by decide, by decide, by decide, by decide, by decide,
    h.1, h.2.1, h.2.2.1⟩

/-! ## Further facts about memory and loops -/

theorem ramWrite_same (s : Chip8) (a b : Nat) (ha : a < 4096) :
    (ramWrite s a b).ram a = b % 256 := by
  rw [ramWrite_lt s a b ha]
  exact Function.update_same _ _ _

theorem ramWrite_other (s : Chip8) (a b c : Nat) (h : c ≠ a) :
    (ramWrite s a b).ram c = s.ram c := by
  unfold ramWrite
  split
  · exact Function.update_noteq h _ _
  · split <;> rfl

theorem ramWrite_v (s : Chip8) (a b : Nat) (ha : a < 4096) : (ramWrite s a b).v = s.v := by
  rw [ramWrite_lt s a b ha]

theorem fetchWord_lt (s : Chip8) : fetchWord s < 65536 := by
  unfold fetchWord; omega

theorem ite_dep (P : Chip8 → Prop) (c : Prop) [Decidable c] (a b : Chip8)
    (ha : c → P a) (hb : ¬ c → P b) : P (if c then a else b) := by
  split
  · exact ha ‹_›
  · exact hb ‹_›

/-! ## Reachable states and their invariant -/

theorem and_0fff_le (x : Nat) : x &&& 0x0fff ≤ 0xFFF := by
  rw [and_0fff]; omega

theorem setReg_lt {v : Nat → Nat} (hv : ∀ k, v k < 256) (j b : Nat) :
    ∀ k, setReg v j b k < 256 := by
  intro k
  by_cases h : k = j
  · subst h; rw [setReg_same]; omega
  · rw [setReg_other _ _ _ _ h]; exact hv k

theorem Inv.with_v (t : Chip8) (v2 : Nat → Nat) (h : Inv t) (hv : ∀ k, v2 k < 256) :
    Inv { t with v := v2 } :=
  ⟨hv, h.i_le, h.stack_le, h.pc_le, h.not_both⟩

theorem Inv.with_pc (t : Chip8) (p : Nat) (h : Inv t) (hp : p ≤ 0x1001) :
    Inv { t with pc := p } :=
  ⟨h.v_lt, h.i_le, h.stack_le, hp, h.not_both⟩

theorem Inv.with_i (t : Chip8) (i2 : Nat) (h : Inv t) (hi : i2 ≤ 0xFFF) :
    Inv { t with i := i2 } :=
  ⟨h.v_lt, hi, h.stack_le, h.pc_le, h.not_both⟩

theorem Inv.with_display (t : Chip8) (d : Nat → Bool) (h : Inv t) : Inv { t with display := d } :=
  ⟨h.v_lt, h.i_le, h.stack_le, h.pc_le, h.not_both⟩

theorem Inv.with_ram (t : Chip8) (m : Nat → Nat) (h : Inv t) : Inv { t with ram := m } :=
  ⟨h.v_lt, h.i_le, h.stack_le, h.pc_le, h.not_both⟩

theorem ramWrite_v_lt (s : Chip8) (a b : Nat) (h : ∀ k, s.v k < 256) :
    ∀ k, (ramWrite s a b).v k < 256 := by
  intro k
  unfold ramWrite
  split
  · exact h k
  · split
    · show Function.update s.v (a - CHIP8_MEMORY) (b % 256) k < 256
      by_cases hk : k = a - CHIP8_MEMORY
      · rw [hk, Function.update_same]
        exact Nat.mod_lt _ (by decide)
      · rw [Function.update_noteq hk]
        exact h k
    · exact h k

theorem Inv.ramWrite (t : Chip8) (a b : Nat) (h : Inv t) : Inv (ramWrite t a b) := by
  obtain ⟨f1, f2, f3, -, -, -, -, f8, f9, -, -⟩ := ramWrite_frame t a b
  refine ⟨ramWrite_v_lt t a b h.v_lt, ?_, ?_, ?_, ?_⟩
  · rw [f1]; exact h.i_le
  · rw [f3]; exact h.stack_le
  · rw [f2]; exact h.pc_le
  · rw [f9, f8]; exact h.not_both

theorem Inv.with_delay (t : Chip8) (d : Nat) (h : Inv t) : Inv { t with delay_tmr := d } :=
  ⟨h.v_lt, h.i_le, h.stack_le, h.pc_le, h.not_both⟩

theorem Inv.with_sound (t : Chip8) (d : Nat) (h : Inv t) : Inv { t with sound_tmr := d } :=
  ⟨h.v_lt, h.i_le, h.stack_le, h.pc_le, h.not_both⟩

theorem Inv.with_keys (t : Chip8) (d : Nat → Bool) (h : Inv t) : Inv { t with keys := d } :=
  ⟨h.v_lt, h.i_le, h.stack_le, h.pc_le, h.not_both⟩

theorem Inv.with_await (t : Chip8) (r : Nat) (h : Inv t) (he : t.error_type = Chip8_NoError) :
    Inv { t with awaiting_keypress := some r } :=
  ⟨h.v_lt, h.i_le, h.stack_le, h.pc_le, Or.inl he⟩

theorem Inv.push (t : Chip8) (addr : Nat) (h : Inv t) (hp : t.pc ≤ 0xFFF) (ha : addr ≤ 0x1001) :
    Inv { t with stack := t.stack ++ [t.pc], pc := addr } := by
  refine ⟨h.v_lt, h.i_le, ?_, ha, h.not_both⟩
  intro a hmem
  rcases List.mem_append.1 hmem with h1 | h1
  · exact h.stack_le a h1
  · rw [List.mem_singleton.1 h1]; exact hp

theorem Inv.pop (t : Chip8) (back : Nat) (h : Inv t) (hb : t.stack.getLast? = some back) :
    Inv { t with pc := back, stack := t.stack.dropLast } := by
  refine ⟨h.v_lt, h.i_le, ?_, ?_, h.not_both⟩
  · intro a hmem
    exact h.stack_le a (List.dropLast_subset _ hmem)
  · have := h.stack_le back (List.mem_of_getLast?_eq_some hb)
    show back ≤ 0x1001
    omega

theorem Inv.advance (t : Chip8) (h : Inv t) : Inv (advance t) :=
  ⟨h.v_lt, h.i_le, h.stack_le, le_trans (and_0fff_le _) (by decide), h.not_both⟩

theorem Inv.of_error (ty : Chip8_ErrorType) (t : Chip8) (h : Inv t)
    (ha : t.awaiting_keypress = none) : Inv (error ty t) :=
  ⟨h.v_lt, h.i_le, h.stack_le, le_trans (and_0fff_le _) (by decide), Or.inr ha⟩

theorem Inv.of_ite (c : Prop) [Decidable c] (a b : Chip8) (ha : Inv a) (hb : Inv b) :
    Inv (if c then a else b) := by
  split
  · exact ha
  · exact hb

theorem Inv.drawPixel (X Y row b : Nat) (t : Chip8) (col : Nat) (h : Inv t) :
    Inv (drawPixel X Y row b t col) := by
  unfold Chip8cc.drawPixel
  dsimp only
  split
  · exact ⟨setReg_lt h.v_lt _ _, h.i_le, h.stack_le, h.pc_le, h.not_both⟩
  · exact ⟨h.v_lt, h.i_le, h.stack_le, h.pc_le, h.not_both⟩

theorem Inv.drawSprite (X Y n : Nat) (t : Chip8) (h : Inv t) : Inv (drawSprite X Y n t) := by
  unfold Chip8cc.drawSprite
  apply foldl_inv Inv
  · intro u row hu
    unfold drawRow
    apply foldl_inv Inv
    · intro w col hw
      exact Inv.drawPixel _ _ _ _ _ _ hw
    · exact hu
  · exact Inv.with_v t _ h (setReg_lt h.v_lt _ _)

theorem Inv.storeRegs (l : List Nat) (t : Chip8) (h : Inv t) : Inv (l.foldl storeReg t) := by
  apply foldl_inv Inv
  · intro u r hu
    have h1 := Inv.ramWrite u u.i (u.v r) hu
    exact ⟨h1.v_lt, and_0fff_le _, h1.stack_le, h1.pc_le, h1.not_both⟩
  · exact h

theorem Inv.loadRegs (l : List Nat) (t : Chip8) (h : Inv t) : Inv (l.foldl loadReg t) := by
  apply foldl_inv Inv
  · intro u r hu
    exact ⟨setReg_lt hu.v_lt _ _, and_0fff_le _, hu.stack_le, hu.pc_le, hu.not_both⟩
  · exact h

theorem font_addr_le (x : Nat) (hx : x < 256) : x * CHIP8_FONT_HEIGHT % 65536 ≤ 0xFFF := by
  unfold CHIP8_FONT_HEIGHT
  rw [Nat.mod_eq_of_lt (by omega)]
  omega

theorem skip_pc_le (p : Nat) (hp : p ≤ 0xFFF) : (p + 2) % 65536 ≤ 0x1001 := by
  omega

theorem Inv.step8 (op X Y : Nat) (t : Chip8) (h : Inv t) (ha : t.awaiting_keypress = none) :
    Inv (step8 op X Y t) := by
  unfold Chip8cc.step8
  dsimp only
  repeat' first
    | with_reducible first
        | apply Inv.of_ite
        | exact Inv.with_v _ _ h (setReg_lt h.v_lt _ _)
        | exact Inv.with_v _ _ h (setReg_lt (setReg_lt h.v_lt _ _) _ _)
        | exact Inv.of_error _ _ h ha

theorem Inv.stepE (X lo : Nat) (t : Chip8) (h : Inv t) (ha : t.awaiting_keypress = none) :
    Inv (stepE X lo t) := by
  unfold Chip8cc.stepE
  repeat' first
    | with_reducible first
        | apply Inv.of_ite
        | exact Inv.of_error _ _ h ha
        | exact Inv.advance _ h
        | exact h

theorem Inv.stepF (X lo : Nat) (t : Chip8) (h : Inv t) (he : t.error_type = Chip8_NoError)
    (ha : t.awaiting_keypress = none) : Inv (stepF X lo t) := by
  unfold Chip8cc.stepF
  dsimp only
  repeat' first
    | with_reducible first
        | apply Inv.of_ite
        | exact Inv.with_v _ _ h (setReg_lt h.v_lt _ _)
        | exact Inv.with_await _ _ h he
        | exact Inv.with_delay _ _ h
        | exact Inv.with_sound _ _ h
        | exact Inv.with_i _ _ h (and_0fff_le _)
        | exact Inv.with_i _ _ h (font_addr_le _ (h.v_lt _))
        | exact Inv.ramWrite _ _ _ (Inv.ramWrite _ _ _ (Inv.ramWrite _ _ _ h))
        | exact Inv.storeRegs _ _ h
        | exact Inv.loadRegs _ _ h
        | exact Inv.of_error _ _ h ha

theorem Inv.exec (rnd op : Nat) (t : Chip8) (h : Inv t) (hr : Running t) (hp : t.pc ≤ 0xFFF) :
    Inv (exec rnd op t) := by
  obtain ⟨he, ha⟩ := hr
  unfold Chip8cc.exec
  dsimp only
  repeat' first
    | with_reducible first
        | apply Inv.of_ite
        | exact Inv.with_display _ _ h
        | exact Inv.with_pc _ _ h (le_trans (and_0fff_le _) (by decide))
        | exact Inv.with_pc _ _ h (skip_pc_le _ hp)
        | exact Inv.push _ _ h hp (le_trans (and_0fff_le _) (by decide))
        | exact Inv.with_v _ _ h (setReg_lt h.v_lt _ _)
        | exact Inv.with_i _ _ h (and_0fff_le _)
        | exact Inv.step8 _ _ _ _ h ha
        | exact Inv.stepE _ _ _ h ha
        | exact Inv.stepF _ _ _ h he ha
        | exact Inv.drawSprite _ _ _ _ h
        | exact Inv.of_error _ _ h ha
        | exact Inv.advance _ h
        | exact h
        | split
  exact Inv.pop _ _ h ‹_›

theorem Inv.step (rnd : Nat) (s : Chip8) (h : Inv s) : Inv (step rnd s) := by
  by_cases hr : Running s
  · rw [step_running rnd s hr]
    exact Inv.exec rnd _ _ (Inv.advance s h) hr (and_0fff_le _)
  · have hn : s.error_type ≠ Chip8_NoError ∨ s.awaiting_keypress ≠ none := by
      unfold Running at hr
      by_cases he : s.error_type = Chip8_NoError
      · exact Or.inr (fun ha => hr ⟨he, ha⟩)
      · exact Or.inl he
    rw [step_noop rnd s hn]
    exact h

theorem Inv.key_down (k : Nat) (s : Chip8) (h : Inv s) : Inv (key_down k s) := by
  unfold Chip8cc.key_down
  dsimp only
  split
  · exact ⟨setReg_lt h.v_lt _ _, h.i_le, h.stack_le, h.pc_le, Or.inr rfl⟩
  · exact ⟨h.v_lt, h.i_le, h.stack_le, h.pc_le, h.not_both⟩

theorem Inv.key_up (k : Nat) (s : Chip8) (h : Inv s) : Inv (key_up k s) :=
  ⟨h.v_lt, h.i_le, h.stack_le, h.pc_le, h.not_both⟩

theorem Inv.initial (s : Chip8) (h : Initial s) : Inv s := by
  obtain ⟨ram, -, rfl⟩ := h
  refine ⟨fun k => ?_, ?_, fun a hm => absurd hm (List.not_mem_nil a), ?_, Or.inl rfl⟩
  · show (0 : Nat) < 256
    decide
  · show (0 : Nat) ≤ 0xFFF
    decide
  · show CHIP8_PROGRAM_START ≤ 0x1001
    decide

theorem Inv.reaches (s0 s : Chip8) (h0 : Inv s0) (h : Reaches s0 s) : Inv s := by
  induction h with
  | start => exact h0
  | byStep rnd _ ih => exact Inv.step rnd _ ih
  | byKeyDown k _ _ ih => exact Inv.key_down k _ ih
  | byKeyUp k _ _ ih => exact Inv.key_up k _ ih

theorem Inv.reachable (s : Chip8) (h : Reachable s) : Inv s := by
  obtain ⟨s0, hi, hreach⟩ := h
  exact Inv.reaches s0 s (Inv.initial s0 hi) hreach

theorem rom_initial (bytes : List Nat) :
    Initial (load_program bytes (load_default_font Chip8.init)) := by
  refine ⟨(load_program bytes (load_default_font Chip8.init)).ram, ?_, rfl⟩
  intro a
  show (if CHIP8_PROGRAM_START ≤ a ∧ a < CHIP8_PROGRAM_START + bytes.length
      then bytes.getD (a - CHIP8_PROGRAM_START) 0 % 256
      else (load_default_font Chip8.init).ram a) < 256
  split
  · omega
  · show (if a < CHIP8_FONT.length then CHIP8_FONT.getD a 0 else 0) < 256
    split
    · have hf : ∀ j : Fin 80, CHIP8_FONT.getD j.val 0 < 256 := by decide
      exact hf ⟨a, ‹_›⟩
    · decide

theorem reachable_stepN (rnds : Nat → Nat) (n : Nat) (s : Chip8) (h : Reachable s) :
    Reachable (stepN rnds n s) := by
  induction n generalizing s with
  | zero => exact h
  | succ n ih =>
    apply ih
    obtain ⟨s0, hi, hr⟩ := h
    exact ⟨s0, hi, Reaches.byStep _ hr⟩

theorem reachable_rom_steps (bytes : List Nat) (rnds : Nat → Nat) (n : Nat) :
    Reachable (stepN rnds n (load_program bytes (load_default_font Chip8.init))) :=
  reachable_stepN rnds n _ ⟨_, rom_initial bytes, Reaches.start⟩

/-! ## C11: the program counter -/

/-- Claim C11, failing input: the ROM `60 90 61 10 AF FC F1 55 1F FC` reaches in five steps
the running state with `pc = 0xFFC` and the word `9010` at `pc`, with `V0 ≠ V1`; the taken
skip of the sixth step leaves `pc = 0x1000`, beyond `0xFFF`. The taken skip-ne-imm word
`4050` at the same address leaves `pc = 0`. -/
theorem skip_ne_reg_leaves_pc_unmasked :
    Reachable skipAtEndState ∧ Running skipAtEndState ∧ skipAtEndState.pc = 0xFFC ∧
    fetchWord skipAtEndState = 0x9010 ∧ skipAtEndState.v 0 ≠ skipAtEndState.v 1 ∧
    Reachable (step 0 skipAtEndState) ∧
    (step 0 skipAtEndState).pc = 0x1000 ∧ ¬ (step 0 skipAtEndState).pc ≤ 0xFFF ∧
    Running skipImmAtEndState ∧ skipImmAtEndState.pc = 0xFFC ∧
    fetchWord skipImmAtEndState = 0x4050 ∧ (step 0 skipImmAtEndState).pc = 0 := by
  have hreach : Reachable skipAtEndState := reachable_rom_steps _ _ 5
  have hreach2 : Reachable (step 0 skipAtEndState) := by
    obtain ⟨s0, hi, hr⟩ := hreach
    exact ⟨s0, hi, Reaches.byStep 0 hr⟩
  exact ⟨hreach, ⟨by decide, by decide⟩, by decide, by decide, by decide, hreach2, by decide,
    by decide, ⟨by decide, by decide⟩, by decide, by decide, by decide⟩

/-- In every reachable state `pc ≤ 0x1001`: the taken skip of 9XY0 is the only instruction
that leaves `pc` unmasked, and it adds 2 to a masked value. -/
theorem reachable_pc_le (s : Chip8) (h : Reachable s) : s.pc ≤ 0x1001 :=
  (Inv.reachable s h).pc_le

/-! ## C12: fault latching and exclusivity -/

theorem key_down_error_fields (k : Nat) (s : Chip8) :
    (key_down k s).error_type = s.error_type ∧ (key_down k s).error_addr = s.error_addr ∧
    (key_down k s).error_opcode = s.error_opcode := by
  unfold key_down
  dsimp only
  split <;> exact ⟨rfl, rfl, rfl⟩

theorem fault_latched (s t : Chip8) (hs : s.error_type ≠ Chip8_NoError) (h : Reaches s t) :
    t.error_type = s.error_type ∧ t.error_addr = s.error_addr ∧
    t.error_opcode = s.error_opcode := by
  induction h with
  | start => exact ⟨rfl, rfl, rfl⟩
  | byStep rnd _ ih =>
    rw [step_noop rnd _ (Or.inl (by rw [ih.1]; exact hs))]
    exact ih
  | byKeyDown k _ _ ih =>
    obtain ⟨e1, e2, e3⟩ := key_down_error_fields k ‹Chip8›
    exact ⟨e1.trans ih.1, e2.trans ih.2.1, e3.trans ih.2.2⟩
  | byKeyUp k _ _ ih => exact ih

/-- Claim C12: in every reachable state the fault and the pending key target are never both
set; and once `error_type` is a fault kind, every state reached from there by `step`,
`key_down k`, `key_up k` (`k < 16`) has the same `error_type`, `error_addr` and
`error_opcode`. -/
theorem fault_exclusive_and_latched (s : Chip8) (h : Reachable s) :
    ¬ (s.error_type ≠ Chip8_NoError ∧ s.awaiting_keypress ≠ none) ∧
    (s.error_type ≠ Chip8_NoError → ∀ t, Reaches s t →
      t.error_type = s.error_type ∧ t.error_addr = s.error_addr ∧
      t.error_opcode = s.error_opcode) := by
  constructor
  · rintro ⟨h1, h2⟩
    rcases (Inv.reachable s h).not_both with h3 | h3
    · exact h1 h3
    · exact h2 h3
  · intro hs t ht
    exact fault_latched s t hs ht

/-- Claim C12 at the faulted state of the ROM `51 21`: no key is awaited, and after a
`step`, `key_down 3`, `key_up 3` and another `step` the fault record is the same. -/
theorem fault_exclusive_and_latched_witness :
    Reachable haltedState ∧ haltedState.error_type = Chip8_InvalidOpcode ∧
    haltedState.awaiting_keypress = none ∧
    (step 0 (key_up 3 (key_down 3 (step 0 haltedState)))).error_type = Chip8_InvalidOpcode ∧
    (step 0 (key_up 3 (key_down 3 (step 0 haltedState)))).error_addr = 0x200 ∧
    (step 0 (key_up 3 (key_down 3 (step 0 haltedState)))).error_opcode = 0x5121 := by
  have hreach : Reachable haltedState := reachable_rom_steps [0x51, 0x21] (fun _ => 0) 1
  have h := fault_exclusive_and_latched haltedState hreach
  have hne : haltedState.error_type ≠ Chip8_NoError := by decide
  have hpath : Reaches haltedState (step 0 (key_up 3 (key_down 3 (step 0 haltedState)))) :=
    Reaches.byStep 0 (Reaches.byKeyUp 3 (by decide) (Reaches.byKeyDown 3 (by decide)
      (Reaches.byStep 0 Reaches.start)))
  have h2 := h.2 hne _ hpath
  refine ⟨hreach, by decide, ?_, h2.1.trans (by decide), h2.2.1.trans (by decide),
    h2.2.2.trans (by decide)⟩
  cases ha : haltedState.awaiting_keypress with
  | none => rfl
  | some r => exact absurd ⟨hne, by rw [ha]; exact Option.some_ne_none r⟩ h.1

/-! ## C13: decode coverage -/

theorem keep_not_invalid (t r : Chip8) (h : r.error_type = t.error_type)
    (ht : t.error_type = Chip8_NoError) : r.error_type ≠ Chip8_InvalidOpcode := by
  rw [h, ht]; decide

theorem error_kind_not_invalid (ty : Chip8_ErrorType) (t : Chip8)
    (h : ty ≠ Chip8_InvalidOpcode) : (error ty t).error_type ≠ Chip8_InvalidOpcode := h

theorem exec_matched (rnd w : Nat) (t : Chip8) (hw : w < 65536)
    (ht : t.error_type = Chip8_NoError) (hm : matchesInstruction w = true) :
    (exec rnd w t).error_type ≠ Chip8_InvalidOpcode := by
  simp [matchesInstruction, instructionPatterns, matchesPattern, digitMatches, hexDigit] at hm
  have hhi := and_f000 w
  have hn := and_000f w
  have hlo := and_00ff w
  unfold exec step8 stepE stepF
  dsimp only
  repeat' first
    | with_reducible first
        | apply ite_dep (fun r => r.error_type ≠ Chip8_InvalidOpcode) <;> intro _
        | exact keep_not_invalid t _ rfl ht
        | exact keep_not_invalid t _ (drawSprite_error_type _ _ _ _) ht
        | exact keep_not_invalid t _ (storeRegs_error_type _ _) ht
        | exact keep_not_invalid t _ (loadRegs_error_type _ _) ht
        | exact keep_not_invalid t _ (((ramWrite_error_type _ _ _).trans
            (ramWrite_error_type _ _ _)).trans (ramWrite_error_type _ _ _)) ht
        | exact error_kind_not_invalid _ _ (by decide)
        | split
    | exact keep_not_invalid t _ rfl ht
    | (exfalso; omega)

/-- Claim C13: for a running state with `pc ≤ 0xFFF`, `step` raises the `Chip8_InvalidOpcode`
fault if and only if the word at `pc` matches none of the instruction patterns 00E0, 00EE,
1NNN, 2NNN, 3XNN, 4XNN, 5XY0, 6XNN, 7XNN, 8XY0..8XY7, 8XYE, 9XY0, ANNN, BNNN, CXNN, DXYN,
EX9E, EXA1, FX07, FX0A, FX15, FX18, FX1E, FX29, FX33, FX55, FX65; a matched word never yields
`Chip8_InvalidOpcode`. -/
theorem invalid_opcode_iff_unmatched (rnd : Nat) (s : Chip8) (hr : Running s)
    (_hpc : s.pc ≤ 0xFFF) :
    ((step rnd s).error_type = Chip8_InvalidOpcode ↔ matchesInstruction (fetchWord s) = false) ∧
    (matchesInstruction (fetchWord s) = true →
      (step rnd s).error_type ≠ Chip8_InvalidOpcode) := by
  rw [step_running rnd s hr]
  have hmatched : matchesInstruction (fetchWord s) = true →
      (exec rnd (fetchWord s) (advance s)).error_type ≠ Chip8_InvalidOpcode :=
    exec_matched rnd _ _ (fetchWord_lt s) hr.1
  refine ⟨⟨?_, ?_⟩, hmatched⟩
  · intro he
    cases hm : matchesInstruction (fetchWord s) with
    | false => rfl
    | true => exact absurd he (hmatched hm)
  · intro hm
    rw [exec_unmatched rnd _ _ hm]
    rfl

/-- Claim C13 at the ROM `51 21` (the word `0x5121` matches no pattern and faults with
`Chip8_InvalidOpcode`) and at the ROM `E0 9E` (a matched word, no such fault). -/
theorem invalid_opcode_iff_unmatched_witness :
    Running badSkipState ∧ badSkipState.pc ≤ 0xFFF ∧
    matchesInstruction (fetchWord badSkipState) = false ∧
    (step 0 badSkipState).error_type = Chip8_InvalidOpcode ∧
    Running keySkipState ∧ keySkipState.pc ≤ 0xFFF ∧
    matchesInstruction (fetchWord keySkipState) = true ∧
    (step 0 keySkipState).error_type ≠ Chip8_InvalidOpcode := by
  have h1 := (invalid_opcode_iff_unmatched 0 badSkipState ⟨rfl, rfl⟩ (by decide)).1.2
    (by decide)
  have h2 := (invalid_opcode_iff_unmatched 0 keySkipState ⟨rfl, rfl⟩ (by decide)).2
    (by decide)
  exact ⟨⟨rfl, rfl⟩, by decide, by decide, h1, ⟨rfl, rfl⟩, by decide, by decide, h2⟩

/-! ## C14: store-regs and load-regs -/

theorem inc_masked (a n : Nat) :
    (((a + n) % 4096 + 1) % 65536) &&& 0x0fff = (a + (n + 1)) % 4096 := by
  rw [and_0fff]; omega

theorem storeRegs_spec (t : Chip8) (a : Nat) (hi : t.i = a) (ha : a ≤ 0xFFF) :
    ∀ n, n ≤ 16 →
      ((List.range n).foldl storeReg t).i = (a + n) % 4096 ∧
      ((List.range n).foldl storeReg t).v = t.v ∧
      (∀ k, k < n → ((List.range n).foldl storeReg t).ram ((a + k) % 4096) = t.v k % 256) ∧
      (∀ c, (∀ k, k < n → c ≠ (a + k) % 4096) →
        ((List.range n).foldl storeReg t).ram c = t.ram c) := by
  intro n
  induction n with
  | zero =>
    intro _
    refine ⟨?_, rfl, ?_, fun _ _ => rfl⟩
    · show t.i = _
      rw [hi]; omega
    · intro k hk; omega
  | succ n ih =>
    intro hn
    obtain ⟨i1, i2, i3, i4⟩ := ih (by omega)
    rw [List.range_succ, List.foldl_append]
    simp only [List.foldl_cons, List.foldl_nil]
    generalize (List.range n).foldl storeReg t = u at i1 i2 i3 i4
    have hlt : u.i < 4096 := by rw [i1]; exact Nat.mod_lt _ (by decide)
    have hs : storeReg u n =
        { u with ram := Function.update u.ram u.i (u.v n % 256),
                 i := ((u.i + 1) % 65536) &&& 0x0fff } := by
      unfold storeReg
      rw [ramWrite_lt u u.i (u.v n) hlt]
    rw [hs]
    refine ⟨?_, i2, ?_, ?_⟩
    · show ((u.i + 1) % 65536) &&& 0x0fff = _
      rw [i1, inc_masked]
    · intro k hk
      show Function.update u.ram u.i (u.v n % 256) ((a + k) % 4096) = _
      rw [i1, i2]
      by_cases hkn : k = n
      · subst hkn
        exact Function.update_same _ _ _
      · rw [Function.update_noteq (by omega)]
        exact i3 k (by omega)
    · intro c hc
      show Function.update u.ram u.i (u.v n % 256) c = _
      rw [i1, Function.update_noteq (hc n (by omega))]
      exact i4 c (fun k hk => hc k (by omega))

theorem loadRegs_spec (t : Chip8) (a : Nat) (hi : t.i = a) (ha : a ≤ 0xFFF) :
    ∀ n, n ≤ 16 →
      ((List.range n).foldl loadReg t).i = (a + n) % 4096 ∧
      ((List.range n).foldl loadReg t).ram = t.ram ∧
      (∀ k, k < n → ((List.range n).foldl loadReg t).v k = t.ram ((a + k) % 4096) % 256) ∧
      (∀ k, n ≤ k → ((List.range n).foldl loadReg t).v k = t.v k) := by
  intro n
  induction n with
  | zero =>
    intro _
    refine ⟨?_, rfl, ?_, fun _ _ => rfl⟩
    · show t.i = _
      rw [hi]; omega
    · intro k hk; omega
  | succ n ih =>
    intro hn
    obtain ⟨i1, i2, i3, i4⟩ := ih (by omega)
    rw [List.range_succ, List.foldl_append]
    simp only [List.foldl_cons, List.foldl_nil]
    generalize (List.range n).foldl loadReg t = u at i1 i2 i3 i4
    refine ⟨?_, i2, ?_, ?_⟩
    · show ((u.i + 1) % 65536) &&& 0x0fff = _
      rw [i1, inc_masked]
    · intro k hk
      show setReg u.v n (ramRead u u.i) k = _
      by_cases hkn : k = n
      · subst hkn
        rw [setReg_same, i1, ramRead_lt _ _ (Nat.mod_lt _ (by decide)), i2]
      · rw [setReg_other _ _ _ _ hkn]
        exact i3 k (by omega)
    · intro k hk
      show setReg u.v n (ramRead u u.i) k = _
      rw [setReg_other _ _ _ _ (by omega)]
      exact i4 k (by omega)

theorem exec_store_regs (rnd X : Nat) (t : Chip8) (hX : X < 16) :
    exec rnd (0xF055 + 0x100 * X) t = (List.range (X + 1)).foldl storeReg t := by
  have hw : 0xF055 + 0x100 * X = 0x1000 * 15 + 0x100 * X + 0x10 * 5 + 5 := by omega
  obtain ⟨h1, h2, -, -, h5, -⟩ := decode_word 15 X 5 5 (by omega) hX (by omega) (by omega)
  rw [hw]
  unfold exec
  simp only [h1, h2, h5]
  norm_num
  unfold stepF
  norm_num

theorem exec_load_regs (rnd X : Nat) (t : Chip8) (hX : X < 16) :
    exec rnd (0xF065 + 0x100 * X) t = (List.range (X + 1)).foldl loadReg t := by
  have hw : 0xF065 + 0x100 * X = 0x1000 * 15 + 0x100 * X + 0x10 * 6 + 5 := by omega
  obtain ⟨h1, h2, -, -, h5, -⟩ := decode_word 15 X 6 5 (by omega) hX (by omega) (by omega)
  rw [hw]
  unfold exec
  simp only [h1, h2, h5]
  norm_num
  unfold stepF
  norm_num

/-- Claim C14: for a running state with `I = a ≤ 0xFFF` and `X < 16`, the store-regs word
FX55 writes `Vk` to `ram[(a + k) mod 4096]` for every `k ≤ X`, changes no register and no
other byte of memory, and leaves `I = (a + X + 1) mod 4096`; and in any later running state
whose memory still holds those bytes, whatever its registers, with `I` set back to `a`, the
load-regs word FX65 gives every register `V0..VX` the value it had before the store and
leaves the registers above `X` as they are. -/
theorem store_regs_then_load_regs (r1 r2 : Nat) (s s2 : Chip8) (a X : Nat) (hr : Running s)
    (hX : X < 16) (hi : s.i = a) (ha : a ≤ 0xFFF) (hv : ∀ k, k ≤ X → s.v k < 256)
    (hw : fetchWord s = 0xF055 + 0x100 * X)
    (hr2 : Running s2) (hi2 : s2.i = a) (hw2 : fetchWord s2 = 0xF065 + 0x100 * X)
    (hmem : ∀ k, k ≤ X → s2.ram ((a + k) % 4096) = (step r1 s).ram ((a + k) % 4096)) :
    ((∀ k, k ≤ X → (step r1 s).ram ((a + k) % 4096) = s.v k) ∧
      (∀ c, (∀ k, k ≤ X → c ≠ (a + k) % 4096) → (step r1 s).ram c = s.ram c) ∧
      (step r1 s).v = s.v ∧ (step r1 s).i = (a + X + 1) % 4096) ∧
    ((∀ k, k ≤ X → (step r2 s2).v k = s.v k) ∧
      (∀ k, X < k → (step r2 s2).v k = s2.v k)) := by
  obtain ⟨p1, p2, p3, p4⟩ := storeRegs_spec (advance s) a hi ha (X + 1) (by omega)
  obtain ⟨-, -, q3, q4⟩ := loadRegs_spec (advance s2) a hi2 ha (X + 1) (by omega)
  have e1 : step r1 s = (List.range (X + 1)).foldl storeReg (advance s) := by
    rw [step_running r1 s hr, hw, exec_store_regs r1 X _ hX]
  have e2 : step r2 s2 = (List.range (X + 1)).foldl loadReg (advance s2) := by
    rw [step_running r2 s2 hr2, hw2, exec_load_regs r2 X _ hX]
  have hstore : ∀ k, k ≤ X → (step r1 s).ram ((a + k) % 4096) = s.v k := by
    intro k hk
    rw [e1, p3 k (by omega)]
    exact Nat.mod_eq_of_lt (hv k hk)
  refine ⟨⟨hstore, ?_, ?_, ?_⟩, ?_, ?_⟩
  · intro c hc
    rw [e1]
    exact p4 c (fun k hk => hc k (by omega))
  · rw [e1]; exact p2
  · rw [e1, p1]; rfl
  · intro k hk
    rw [e2, q3 k (by omega)]
    show s2.ram ((a + k) % 4096) % 256 = _
    rw [hmem k hk, hstore k hk]
    exact Nat.mod_eq_of_lt (hv k hk)
  · intro k hk
    rw [e2]
    exact q4 k (by omega)

/-- Claim C14 at the ROM `60 11 61 22 A3 00 F1 55 60 00 61 00 A3 00 F1 65`: the store puts
`0x11`, `0x22` at `0x300`, `0x301` and leaves `I = 0x302`; after the registers have been
zeroed, the load gives `V0 = 0x11`, `V1 = 0x22` again. -/
theorem store_regs_then_load_regs_witness :
    Running storeState ∧ storeState.i = 0x300 ∧ storeState.v 0 = 0x11 ∧ storeState.v 1 = 0x22 ∧
    fetchWord storeState = 0xF055 + 0x100 * 1 ∧
    Running loadState ∧ loadState.i = 0x300 ∧ loadState.v 0 = 0 ∧ loadState.v 1 = 0 ∧
    fetchWord loadState = 0xF065 + 0x100 * 1 ∧
    (step 0 storeState).ram 0x300 = 0x11 ∧ (step 0 storeState).ram 0x301 = 0x22 ∧
    (step 0 storeState).i = 0x302 ∧
    (step 0 loadState).v 0 = 0x11 ∧ (step 0 loadState).v 1 = 0x22 := by
  have h := store_regs_then_load_regs 0 0 storeState loadState 0x300 1 ⟨by decide, by decide⟩
    (by decide) (by decide) (by decide) (by decide) (by decide) ⟨by decide, by decide⟩
    (by decide) (by decide) (by decide)
  refine ⟨⟨by decide, by decide⟩, by decide, by decide, by decide, by decide,
    ⟨by decide, by decide⟩, by decide, by decide, by decide, by decide, ?_, ?_, ?_, ?_, ?_⟩
  · exact (h.1.1 0 (by decide)).trans (by decide)
  · exact (h.1.1 1 (by decide)).trans (by decide)
  · exact h.1.2.2.2
  · exact (h.2.1 0 (by decide)).trans (by decide)
  · exact (h.2.1 1 (by decide)).trans (by decide)

/-! ## C15: store-bcd -/

theorem exec_store_bcd (rnd X : Nat) (t : Chip8) (hX : X < 16) (hi : t.i ≤ 0xFFD) :
    exec rnd (0xF033 + 0x100 * X) t =
      { t with ram := (Function.update (Function.update (Function.update t.ram t.i
          (t.v X / 100 % 256)) (t.i + 1) (t.v X / 10 % 10 % 256)) (t.i + 2)
          (t.v X % 10 % 256)) } := by
  have hw : 0xF033 + 0x100 * X = 0x1000 * 15 + 0x100 * X + 0x10 * 3 + 3 := by omega
  obtain ⟨h1, h2, -, -, h5, -⟩ := decode_word 15 X 3 3 (by omega) hX (by omega) (by omega)
  have l0 : t.i < 4096 := by omega
  have l1 : t.i + 1 < 4096 := by omega
  have l2 : t.i + 2 < 4096 := by omega
  rw [hw]
  unfold exec
  simp only [h1, h2, h5]
  norm_num
  unfold stepF
  norm_num
  rw [ramWrite_lt t t.i _ l0, ramWrite_lt _ (t.i + 1) _ l1, ramWrite_lt _ (t.i + 2) _ l2]

theorem bcd_writes (ram : Nat → Nat) (i x : Nat) (hx : x < 256) :
    Function.update (Function.update (Function.update ram i (x / 100 % 256)) (i + 1)
      (x / 10 % 10 % 256)) (i + 2) (x % 10 % 256) i = x / 100 ∧
    Function.update (Function.update (Function.update ram i (x / 100 % 256)) (i + 1)
      (x / 10 % 10 % 256)) (i + 2) (x % 10 % 256) (i + 1) = x / 10 % 10 ∧
    Function.update (Function.update (Function.update ram i (x / 100 % 256)) (i + 1)
      (x / 10 % 10 % 256)) (i + 2) (x % 10 % 256) (i + 2) = x % 10 ∧
    (∀ a, a ≠ i → a ≠ i + 1 → a ≠ i + 2 →
      Function.update (Function.update (Function.update ram i (x / 100 % 256)) (i + 1)
        (x / 10 % 10 % 256)) (i + 2) (x % 10 % 256) a = ram a) := by
  have n1 : i ≠ i + 1 := by omega
  have n2 : i ≠ i + 2 := by omega
  have n3 : i + 1 ≠ i + 2 := by omega
  refine ⟨?_, ?_, ?_, ?_⟩
  · rw [Function.update_noteq n2, Function.update_noteq n1, Function.update_same]
    omega
  · rw [Function.update_noteq n3, Function.update_same]
    omega
  · rw [Function.update_same]
    omega
  · intro a h0 h1 h2
    rw [Function.update_noteq h2, Function.update_noteq h1, Function.update_noteq h0]

/-- Claim C15: for a running state with `I ≤ 0xFFD` and the word FX33 at `pc`, after `step`
the bytes `ram[I]`, `ram[I+1]`, `ram[I+2]` are the hundreds, tens and ones digits of `VX`
(`VX / 100 ≤ 2`, `VX / 10 % 10 ≤ 9`, `VX % 10 ≤ 9`, and they sum up to `VX` with weights 100,
10, 1); no other byte of memory, no register and not `I` is changed. -/
theorem store_bcd_digits (rnd : Nat) (s : Chip8) (X : Nat) (hr : Running s) (hX : X < 16)
    (hw : fetchWord s = 0xF033 + 0x100 * X) (hi : s.i ≤ 0xFFD) (hv : s.v X < 256) :
    (step rnd s).ram s.i = s.v X / 100 ∧
    (step rnd s).ram (s.i + 1) = s.v X / 10 % 10 ∧
    (step rnd s).ram (s.i + 2) = s.v X % 10 ∧
    (step rnd s).ram s.i ≤ 2 ∧ (step rnd s).ram (s.i + 1) ≤ 9 ∧ (step rnd s).ram (s.i + 2) ≤ 9 ∧
    100 * (step rnd s).ram s.i + 10 * (step rnd s).ram (s.i + 1) + (step rnd s).ram (s.i + 2)
      = s.v X ∧
    (∀ a, a ≠ s.i → a ≠ s.i + 1 → a ≠ s.i + 2 → (step rnd s).ram a = s.ram a) ∧
    (step rnd s).v = s.v ∧ (step rnd s).i = s.i := by
  obtain ⟨b0, b1, b2, b3⟩ := bcd_writes s.ram s.i (s.v X) hv
  have e0 : (step rnd s).ram s.i = s.v X / 100 := by
    rw [step_running rnd s hr, hw, exec_store_bcd rnd X (advance s) hX hi]; exact b0
  have e1 : (step rnd s).ram (s.i + 1) = s.v X / 10 % 10 := by
    rw [step_running rnd s hr, hw, exec_store_bcd rnd X (advance s) hX hi]; exact b1
  have e2 : (step rnd s).ram (s.i + 2) = s.v X % 10 := by
    rw [step_running rnd s hr, hw, exec_store_bcd rnd X (advance s) hX hi]; exact b2
  refine ⟨e0, e1, e2, ?_, ?_, ?_, ?_, ?_, ?_, ?_⟩
  · rw [e0]; omega
  · rw [e1]; omega
  · rw [e2]; omega
  · rw [e0, e1, e2]; omega
  · rw [step_running rnd s hr, hw, exec_store_bcd rnd X (advance s) hX hi]; exact b3
  · rw [step_running rnd s hr, hw, exec_store_bcd rnd X (advance s) hX hi]; rfl
  · rw [step_running rnd s hr, hw, exec_store_bcd rnd X (advance s) hX hi]; rfl

/-- Claim C15 at `V0 = 234`, `I = 0x300`: the bytes at `0x300`, `0x301`, `0x302` become 2, 3, 4. -/
theorem store_bcd_digits_witness :
    Running bcdState ∧ fetchWord bcdState = 0xF033 + 0x100 * 0 ∧ bcdState.i = 0x300 ∧
    bcdState.v 0 = 234 ∧
    (step 0 bcdState).ram 0x300 = 2 ∧ (step 0 bcdState).ram 0x301 = 3 ∧
    (step 0 bcdState).ram 0x302 = 4 := by
  have h := store_bcd_digits 0 bcdState 0 ⟨by decide, by decide⟩ (by decide) (by decide)
    (by decide) (by decide)
  exact ⟨⟨by decide, by decide⟩, by decide, by decide, by decide, h.1.trans (by decide),
    h.2.1.trans (by decide), h.2.2.1.trans (by decide)⟩

/-! ## C16: the shift instructions -/

theorem exec_shift_right (rnd X Y : Nat) (t : Chip8) (hX : X < 16) (hY : Y < 16) :
    (exec rnd (0x8006 + 0x100 * X + 0x10 * Y) t).v =
      setReg (setReg t.v X (t.v Y >>> 1)) 0xf (boolToNat ((t.v X &&& 0b00000001) != 0)) := by
  have hw : 0x8006 + 0x100 * X + 0x10 * Y = 0x1000 * 8 + 0x100 * X + 0x10 * Y + 6 := by omega
  obtain ⟨h1, h2, h3, h4, -, -⟩ := decode_word 8 X Y 6 (by omega) hX hY (by omega)
  rw [hw]
  unfold exec
  simp only [h1, h2, h3]
  norm_num
  unfold step8
  simp only [h4]
  norm_num

theorem exec_shift_left (rnd X Y : Nat) (t : Chip8) (hX : X < 16) (hY : Y < 16) :
    (exec rnd (0x800E + 0x100 * X + 0x10 * Y) t).v =
      setReg (setReg t.v X (t.v Y <<< 1)) 0xf (boolToNat ((t.v X &&& 0b10000000) != 0)) := by
  have hw : 0x800E + 0x100 * X + 0x10 * Y = 0x1000 * 8 + 0x100 * X + 0x10 * Y + 14 := by omega
  obtain ⟨h1, h2, h3, h4, -, -⟩ := decode_word 8 X Y 14 (by omega) hX hY (by omega)
  rw [hw]
  unfold exec
  simp only [h1, h2, h3]
  norm_num
  unfold step8
  simp only [h4]
  norm_num

theorem lsb_flag (x : Nat) : boolToNat ((x &&& 0b00000001) != 0) = x % 2 := by
  rw [Nat.and_one_is_mod]
  unfold boolToNat
  rcases Nat.mod_two_eq_zero_or_one x with h | h <;> simp [h]

theorem msb_flag (x : Nat) (hx : x < 256) : boolToNat ((x &&& 0b10000000) != 0) = x / 128 := by
  have h := and_one_shiftLeft_ne_zero x 7
  have e : (0x1 <<< 7 : Nat) = 0b10000000 := by decide
  rw [e] at h
  rw [h, Nat.testBit_to_div_mod]
  unfold boolToNat
  have h2 : x / 2 ^ 7 = x / 128 := by norm_num
  rw [h2]
  have h3 : x / 128 = 0 ∨ x / 128 = 1 := by omega
  rcases h3 with h3 | h3 <;> simp [h3]

/-- Claim C16: for a running state and register indices `X`, `Y` below 16, the shift-right
word 8XY6 sets `VF` to the least-significant bit of pre-`VX` and, when `X ≠ 15`, `VX` to
pre-`VY` shifted right by one; the shift-left word 8XYE sets `VF` to the most-significant bit
(bit 7) of pre-`VX` and, when `X ≠ 15`, `VX` to pre-`VY` shifted left by one, mod 256. The
shifted operand is `VY`; the flag bit comes from `VX`. -/
theorem shift_uses_vy_and_flags_vx (rnd : Nat) (s : Chip8) (X Y : Nat) (hr : Running s)
    (hX : X < 16) (hY : Y < 16) (hvx : s.v X < 256) (hvy : s.v Y < 256) :
    (fetchWord s = 0x8006 + 0x100 * X + 0x10 * Y →
      (step rnd s).v 0xf = s.v X % 2 ∧ (X ≠ 15 → (step rnd s).v X = s.v Y / 2)) ∧
    (fetchWord s = 0x800E + 0x100 * X + 0x10 * Y →
      (step rnd s).v 0xf = s.v X / 128 ∧ (X ≠ 15 → (step rnd s).v X = (s.v Y * 2) % 256)) := by
  rw [step_running rnd s hr]
  constructor
  · intro hw
    rw [hw, exec_shift_right rnd X Y _ hX hY]
    have hx : (advance s).v X = s.v X := rfl
    have hy : (advance s).v Y = s.v Y := rfl
    rw [hx, hy]
    refine ⟨?_, fun h15 => ?_⟩
    · rw [setReg_same, lsb_flag]; omega
    · rw [setReg_other _ _ _ _ h15, setReg_same, Nat.shiftRight_eq_div_pow]; omega
  · intro hw
    rw [hw, exec_shift_left rnd X Y _ hX hY]
    have hx : (advance s).v X = s.v X := rfl
    have hy : (advance s).v Y = s.v Y := rfl
    rw [hx, hy]
    refine ⟨?_, fun h15 => ?_⟩
    · rw [setReg_same, msb_flag _ hvx]; omega
    · rw [setReg_other _ _ _ _ h15, setReg_same, Nat.shiftLeft_eq]

/-- Claim C16 at `V0 = 3`, `V1 = 0x84`, word `8016` (`VF = 1`, `V0 = 0x42`) and at
`V0 = 0x83`, `V1 = 0xC4`, word `801E` (`VF = 1`, `V0 = 0x88`). -/
theorem shift_uses_vy_and_flags_vx_witness :
    Running shiftRightState ∧ shiftRightState.v 0 = 3 ∧ shiftRightState.v 1 = 0x84 ∧
    fetchWord shiftRightState = 0x8006 + 0x100 * 0 + 0x10 * 1 ∧
    (step 0 shiftRightState).v 0xf = 1 ∧ (step 0 shiftRightState).v 0 = 0x42 ∧
    Running shiftLeftState ∧ shiftLeftState.v 0 = 0x83 ∧ shiftLeftState.v 1 = 0xC4 ∧
    fetchWord shiftLeftState = 0x800E + 0x100 * 0 + 0x10 * 1 ∧
    (step 0 shiftLeftState).v 0xf = 1 ∧ (step 0 shiftLeftState).v 0 = 0x88 := by
  have h1 := (shift_uses_vy_and_flags_vx 0 shiftRightState 0 1 ⟨by decide, by decide⟩
    (by decide) (by decide) (by decide) (by decide)).1 (by decide)
  have h2 := (shift_uses_vy_and_flags_vx 0 shiftLeftState 0 1 ⟨by decide, by decide⟩
    (by decide) (by decide) (by decide) (by decide)).2 (by decide)
  refine ⟨⟨by decide, by decide⟩, by decide, by decide, by decide, ?_, ?_,
    ⟨by decide, by decide⟩, by decide, by decide, by decide, ?_, ?_⟩
  · rw [h1.1]; decide
  · rw [h1.2 (by decide)]; decide
  · rw [h2.1]; decide
  · rw [h2.2 (by decide)]; decide

/-! ## C17: the timers -/

theorem drawPixel_timers (X Y row b : Nat) (s : Chip8) (col : Nat) :
    TimersKept s (drawPixel X Y row b s col) := by
  unfold drawPixel
  dsimp only
  split <;> exact ⟨rfl, rfl⟩

theorem TimersKept.trans {a b c : Chip8} (h1 : TimersKept a b) (h2 : TimersKept b c) :
    TimersKept a c :=
  ⟨h2.1.trans h1.1, h2.2.trans h1.2⟩

theorem drawSprite_timers (X Y n : Nat) (s : Chip8) : TimersKept s (drawSprite X Y n s) := by
  unfold drawSprite
  apply foldl_inv (fun t => TimersKept s t)
  · intro t row ht
    unfold drawRow
    apply foldl_inv (fun u => TimersKept s u)
    · intro u col hu
      exact hu.trans (drawPixel_timers _ _ _ _ _ _)
    · exact ht
  · exact ⟨rfl, rfl⟩

theorem ramWrite_timers (t : Chip8) (a b : Nat) : TimersKept t (ramWrite t a b) :=
  ⟨(ramWrite_frame t a b).2.2.2.2.1, (ramWrite_frame t a b).2.2.2.1⟩

theorem ramWrite3_timers (t : Chip8) (a1 b1 a2 b2 a3 b3 : Nat) :
    TimersKept t (ramWrite (ramWrite (ramWrite t a1 b1) a2 b2) a3 b3) :=
  ⟨((ramWrite_timers _ a3 b3).1.trans (ramWrite_timers _ a2 b2).1).trans
      (ramWrite_timers t a1 b1).1,
    ((ramWrite_timers _ a3 b3).2.trans (ramWrite_timers _ a2 b2).2).trans
      (ramWrite_timers t a1 b1).2⟩

theorem storeRegs_timers (l : List Nat) (s : Chip8) : TimersKept s (l.foldl storeReg s) := by
  apply foldl_inv (fun t => TimersKept s t)
  · intro t r ht
    exact ⟨(ramWrite_timers t t.i (t.v r)).1.trans ht.1,
      (ramWrite_timers t t.i (t.v r)).2.trans ht.2⟩
  · exact ⟨rfl, rfl⟩

theorem loadRegs_timers (l : List Nat) (s : Chip8) : TimersKept s (l.foldl loadReg s) := by
  apply foldl_inv (fun t => TimersKept s t)
  · intro t r ht; exact ht
  · exact ⟨rfl, rfl⟩

theorem step8_timers (op X Y : Nat) (t : Chip8) : TimersKept t (step8 op X Y t) := by
  unfold step8
  dsimp only
  repeat' first
    | with_reducible first
        | apply ite_dep (TimersKept t) <;> intro _
        | exact ⟨rfl, rfl⟩
    | exact ⟨rfl, rfl⟩

theorem stepE_timers (X lo : Nat) (t : Chip8) : TimersKept t (stepE X lo t) := by
  unfold stepE
  repeat' first
    | with_reducible first
        | apply ite_dep (TimersKept t) <;> intro _
        | exact ⟨rfl, rfl⟩
    | exact ⟨rfl, rfl⟩

theorem stepF_timers (X lo : Nat) (t : Chip8) (h15 : lo ≠ 0x15) (h18 : lo ≠ 0x18) :
    TimersKept t (stepF X lo t) := by
  unfold stepF
  dsimp only
  repeat' first
    | with_reducible first
        | apply ite_dep (TimersKept t) <;> intro _
        | exact storeRegs_timers _ _
        | exact loadRegs_timers _ _
        | exact ramWrite3_timers _ _ _ _ _ _ _
        | contradiction
        | exact ⟨rfl, rfl⟩
    | exact ⟨rfl, rfl⟩

theorem stepF_delay (X lo : Nat) (t : Chip8) (h15 : lo ≠ 0x15) :
    (stepF X lo t).delay_tmr = t.delay_tmr := by
  by_cases h18 : lo = 0x18
  · subst h18
    unfold stepF
    norm_num
  · exact (stepF_timers X lo t h15 h18).1

theorem stepF_sound (X lo : Nat) (t : Chip8) (h18 : lo ≠ 0x18) :
    (stepF X lo t).sound_tmr = t.sound_tmr := by
  by_cases h15 : lo = 0x15
  · subst h15
    unfold stepF
    norm_num
  · exact (stepF_timers X lo t h15 h18).2

theorem exec_delay (rnd w : Nat) (t : Chip8)
    (h : ¬ (w &&& 0xf000 = 0xf000 ∧ w &&& 0x00ff = 0x15)) :
    (exec rnd w t).delay_tmr = t.delay_tmr := by
  unfold exec
  dsimp only
  repeat' first
    | with_reducible first
        | apply ite_dep (fun r => r.delay_tmr = t.delay_tmr) <;> intro _
        | exact (drawSprite_timers _ _ _ _).1
        | exact (step8_timers _ _ _ _).1
        | exact (stepE_timers _ _ _).1
        | exact rfl
        | split
    | exact rfl
  exact stepF_delay _ _ _ (fun h15 => h ⟨by assumption, h15⟩)

theorem exec_sound (rnd w : Nat) (t : Chip8)
    (h : ¬ (w &&& 0xf000 = 0xf000 ∧ w &&& 0x00ff = 0x18)) :
    (exec rnd w t).sound_tmr = t.sound_tmr := by
  unfold exec
  dsimp only
  repeat' first
    | with_reducible first
        | apply ite_dep (fun r => r.sound_tmr = t.sound_tmr) <;> intro _
        | exact (drawSprite_timers _ _ _ _).2
        | exact (step8_timers _ _ _ _).2
        | exact (stepE_timers _ _ _).2
        | exact rfl
        | split
    | exact rfl
  exact stepF_sound _ _ _ (fun h18 => h ⟨by assumption, h18⟩)

theorem word_of_group_F (w lo : Nat) (hw : w < 65536) (hlo : lo < 256)
    (h : w &&& 0xf000 = 0xf000 ∧ w &&& 0x00ff = lo) :
    ∃ X, X < 16 ∧ w = 0xF000 + lo + 0x100 * X := by
  rw [and_f000, and_00ff] at h
  exact ⟨w / 256 % 16, Nat.mod_lt _ (by decide), by omega⟩

theorem exec_set_delay (rnd X : Nat) (t : Chip8) (hX : X < 16) :
    exec rnd (0xF015 + 0x100 * X) t = { t with delay_tmr := t.v X } := by
  have hw : 0xF015 + 0x100 * X = 0x1000 * 15 + 0x100 * X + 0x10 * 1 + 5 := by omega
  obtain ⟨h1, h2, -, -, h5, -⟩ := decode_word 15 X 1 5 (by omega) hX (by omega) (by omega)
  rw [hw]
  unfold exec
  simp only [h1, h2, h5]
  norm_num
  unfold stepF
  norm_num

theorem exec_set_sound (rnd X : Nat) (t : Chip8) (hX : X < 16) :
    exec rnd (0xF018 + 0x100 * X) t = { t with sound_tmr := t.v X } := by
  have hw : 0xF018 + 0x100 * X = 0x1000 * 15 + 0x100 * X + 0x10 * 1 + 8 := by omega
  obtain ⟨h1, h2, -, -, h5, -⟩ := decode_word 15 X 1 8 (by omega) hX (by omega) (by omega)
  rw [hw]
  unfold exec
  simp only [h1, h2, h5]
  norm_num
  unfold stepF
  norm_num

theorem step_delay_kept (rnd : Nat) (s : Chip8)
    (h : ¬ ∃ X, X < 16 ∧ fetchWord s = 0xF015 + 0x100 * X) :
    (step rnd s).delay_tmr = s.delay_tmr := by
  by_cases hr : Running s
  · rw [step_running rnd s hr]
    apply exec_delay
    intro hc
    obtain ⟨X, hX, hw⟩ := word_of_group_F _ 0x15 (fetchWord_lt s) (by decide) hc
    exact h ⟨X, hX, hw⟩
  · have hn : s.error_type ≠ Chip8_NoError ∨ s.awaiting_keypress ≠ none := by
      unfold Running at hr
      by_cases he : s.error_type = Chip8_NoError
      · exact Or.inr (fun ha => hr ⟨he, ha⟩)
      · exact Or.inl he
    rw [step_noop rnd s hn]

theorem step_sound_kept (rnd : Nat) (s : Chip8)
    (h : ¬ ∃ X, X < 16 ∧ fetchWord s = 0xF018 + 0x100 * X) :
    (step rnd s).sound_tmr = s.sound_tmr := by
  by_cases hr : Running s
  · rw [step_running rnd s hr]
    apply exec_sound
    intro hc
    obtain ⟨X, hX, hw⟩ := word_of_group_F _ 0x18 (fetchWord_lt s) (by decide) hc
    exact h ⟨X, hX, hw⟩
  · have hn : s.error_type ≠ Chip8_NoError ∨ s.awaiting_keypress ≠ none := by
      unfold Running at hr
      by_cases he : s.error_type = Chip8_NoError
      · exact Or.inr (fun ha => hr ⟨he, ha⟩)
      · exact Or.inl he
    rw [step_noop rnd s hn]

/-- Claim C17, counterexample: the ROM `60 05 F1 0A F0 15` reaches in two steps a state that
waits for a key with the set-delay word `F015` at `pc` and `V0 = 5`; `step` does nothing
there, so `delay_tmr` stays 0 and is not `V0`. The claim as stated, for every state, is
false. -/
theorem set_delay_ignored_while_waiting :
    ¬ (∀ (rnd : Nat) (s : Chip8) (X : Nat), X < 16 → fetchWord s = 0xF015 + 0x100 * X →
        (step rnd s).delay_tmr = s.v X) := by
  intro h
  have h1 := h 0 waitingAtSetDelayState 0 (by decide) (by decide)
  revert h1
  decide

/-- Claim C17, amended: `step` leaves `delay_tmr` unchanged unless the state is running and
the word at `pc` is the set-delay word FX15, and then `delay_tmr = VX`; it leaves `sound_tmr`
unchanged unless the state is running and the word is the set-sound word FX18, and then
`sound_tmr = VX`; `key_down` and `key_up` change neither timer. No instruction decrements a
timer. -/
theorem timers_change_only_by_set_instructions (rnd k : Nat) (s : Chip8) :
    ((¬ ∃ X, X < 16 ∧ fetchWord s = 0xF015 + 0x100 * X) →
      (step rnd s).delay_tmr = s.delay_tmr) ∧
    ((¬ ∃ X, X < 16 ∧ fetchWord s = 0xF018 + 0x100 * X) →
      (step rnd s).sound_tmr = s.sound_tmr) ∧
    (¬ Running s →
      (step rnd s).delay_tmr = s.delay_tmr ∧ (step rnd s).sound_tmr = s.sound_tmr) ∧
    (Running s → ∀ X, X < 16 → fetchWord s = 0xF015 + 0x100 * X →
      (step rnd s).delay_tmr = s.v X ∧ (step rnd s).sound_tmr = s.sound_tmr) ∧
    (Running s → ∀ X, X < 16 → fetchWord s = 0xF018 + 0x100 * X →
      (step rnd s).sound_tmr = s.v X ∧ (step rnd s).delay_tmr = s.delay_tmr) ∧
    ((key_down k s).delay_tmr = s.delay_tmr ∧ (key_down k s).sound_tmr = s.sound_tmr) ∧
    ((key_up k s).delay_tmr = s.delay_tmr ∧ (key_up k s).sound_tmr = s.sound_tmr) := by
  refine ⟨step_delay_kept rnd s, step_sound_kept rnd s, ?_, ?_, ?_, ?_, ⟨rfl, rfl⟩⟩
  · intro hr
    have hn : s.error_type ≠ Chip8_NoError ∨ s.awaiting_keypress ≠ none := by
      unfold Running at hr
      by_cases he : s.error_type = Chip8_NoError
      · exact Or.inr (fun ha => hr ⟨he, ha⟩)
      · exact Or.inl he
    rw [step_noop rnd s hn]
    exact ⟨rfl, rfl⟩
  · intro hr X hX hw
    rw [step_running rnd s hr, hw, exec_set_delay rnd X _ hX]
    exact ⟨rfl, rfl⟩
  · intro hr X hX hw
    rw [step_running rnd s hr, hw, exec_set_sound rnd X _ hX]
    exact ⟨rfl, rfl⟩
  · unfold key_down
    dsimp only
    split <;> exact ⟨rfl, rfl⟩

/-- Claim C17, amended, at the ROM `60 05 F0 15`: in the running state with `V0 = 5` the
word `F015` sets `delay_tmr = 5` and leaves `sound_tmr = 0`; in the waiting state of the
counterexample both timers stay as they are. -/
theorem timers_change_only_by_set_instructions_witness :
    Running setDelayState ∧ fetchWord setDelayState = 0xF015 + 0x100 * 0 ∧
    setDelayState.v 0 = 5 ∧
    (step 0 setDelayState).delay_tmr = 5 ∧ (step 0 setDelayState).sound_tmr = 0 ∧
    ¬ Running waitingAtSetDelayState ∧
    (step 0 waitingAtSetDelayState).delay_tmr = waitingAtSetDelayState.delay_tmr := by
  have h := (timers_change_only_by_set_instructions 0 0 setDelayState).2.2.2.1
    ⟨by decide, by decide⟩ 0 (by decide) (by decide)
  have hw : ¬ Running waitingAtSetDelayState := fun hr => absurd hr.2 (by decide)
  have h2 := (timers_change_only_by_set_instructions 0 0 waitingAtSetDelayState).2.2.1 hw
  exact ⟨⟨by decide, by decide⟩, by decide, by decide, h.1.trans (by decide),
    h.2.trans (by decide), hw, h2.1⟩

/-! ## C18: the indices of memory accesses -/

theorem regLoopAccesses_le (n : Nat) : ∀ i, i ≤ 0xFFF → ∀ a ∈ regLoopAccesses i n, a ≤ 0xFFF := by
  induction n with
  | zero => intro i _ a ha; simp [regLoopAccesses] at ha
  | succ n ih =>
    intro i hi a ha
    simp only [regLoopAccesses, List.mem_cons] at ha
    rcases ha with rfl | ha
    · exact hi
    · exact ih _ (and_0fff_le _) a ha

theorem errorAccesses_le (s : Chip8) : ∀ a ∈ errorAccesses s, a ≤ 0xFFF := by
  intro a ha
  simp only [errorAccesses, fetchAccesses, List.mem_cons, List.mem_singleton,
    List.not_mem_nil, or_false] at ha
  rcases ha with rfl | rfl <;> exact and_0fff_le _

/-- Apart from the two defects (a `pc` beyond `0xFFF` at the fetch, store-bcd with
`I ≥ 0xFFE`), every index that `step` uses is within the memory. -/
theorem stepAccesses_le (rnd : Nat) (s : Chip8) (hi : s.i ≤ 0xFFF) (hpc : s.pc ≤ 0xFFF)
    (hbcd : fetchWord s &&& 0xf000 = 0xf000 → fetchWord s &&& 0x00ff = 0x33 →
      s.i + 2 ≤ 0xFFF) :
    ∀ a ∈ stepAccesses rnd s, a ≤ 0xFFF := by
  intro a ha
  unfold stepAccesses at ha
  split at ha
  · simp at ha
  · rw [List.mem_append] at ha
    rcases ha with ha | ha
    · simp only [fetchAccesses, List.mem_cons, List.mem_singleton, List.not_mem_nil,
        or_false] at ha
      rcases ha with rfl | rfl
      · exact hpc
      · exact and_0fff_le _
    · unfold execAccesses at ha
      rw [List.mem_append] at ha
      rcases ha with ha | ha
      · have hai : (advance s).i = s.i := rfl
        simp only [hai] at ha
        split at ha
        · simp only [List.mem_map, List.mem_range] at ha
          obtain ⟨row, _, rfl⟩ := ha
          exact and_0fff_le _
        · split at ha
          · rename_i hF
            split at ha
            · rename_i h33
              have := hbcd hF h33
              simp only [List.mem_cons, List.mem_singleton, List.not_mem_nil, or_false] at ha
              omega
            · split at ha
              · exact regLoopAccesses_le _ _ hi a ha
              · split at ha
                · exact regLoopAccesses_le _ _ hi a ha
                · simp at ha
          · simp at ha
      · split at ha
        · exact errorAccesses_le _ a ha
        · simp at ha

/-- Claim C18, failing input: the ROM `60 EA AF FF F0 33` reaches in two steps the state with
`I = 0xFFF` and the store-bcd word at `pc`; the third step uses the indices `0x1000` and
`0x1001` of `ram`, beyond `0xFFF`. And in the reachable state with `pc = 0x1000` left by
the taken skip of `skipAtEndState`, the next `step` fetches `ram[0x1000]`. -/
theorem store_bcd_and_fetch_index_beyond_memory :
    Reachable bcdAtEndState ∧ Running bcdAtEndState ∧ bcdAtEndState.i = 0xFFF ∧
    fetchWord bcdAtEndState = 0xF033 ∧
    stepAccesses 0 bcdAtEndState = [0x204, 0x205, 0xFFF, 0x1000, 0x1001] ∧
    (∃ a ∈ stepAccesses 0 bcdAtEndState, ¬ a ≤ 0xFFF) ∧
    (step 0 bcdAtEndState).ram 0xFFF = 2 ∧
    Reachable (step 0 skipAtEndState) ∧ Running (step 0 skipAtEndState) ∧
    (stepAccesses 0 (step 0 skipAtEndState)).head? = some 0x1000 := by
  have hreach : Reachable bcdAtEndState := reachable_rom_steps _ _ 2
  have hreach2 : Reachable (step 0 skipAtEndState) :=
    reachable_rom_steps [0x60, 0x90, 0x61, 0x10, 0xAF, 0xFC, 0xF1, 0x55, 0x1F, 0xFC]
      (fun _ => 0) 6
  refine ⟨hreach, ⟨by decide, by decide⟩, by decide, by decide, by decide,
    ⟨0x1000, by decide, by decide⟩, by decide, hreach2, ⟨by decide, by decide⟩, by decide⟩

/-! ## Accesses past the end of memory -/

/-- In every reachable state the indices that `step` uses are at most `0x1001`: within `ram`
or on `v[0]`, `v[1]`, where `ramRead` and `ramWrite` follow the layout of the object. -/
theorem reachable_accesses_le (rnd : Nat) (s : Chip8) (h : Reachable s) :
    ∀ a ∈ stepAccesses rnd s, a ≤ 0x1001 := by
  have hinv := Inv.reachable s h
  have hi := hinv.i_le
  have hpc := hinv.pc_le
  intro a ha
  unfold stepAccesses at ha
  split at ha
  · simp at ha
  · rw [List.mem_append] at ha
    rcases ha with ha | ha
    · simp only [fetchAccesses, List.mem_cons, List.mem_singleton, List.not_mem_nil,
        or_false] at ha
      rcases ha with rfl | rfl
      · exact hpc
      · exact le_trans (and_0fff_le _) (by decide)
    · unfold execAccesses at ha
      rw [List.mem_append] at ha
      rcases ha with ha | ha
      · have hai : (advance s).i = s.i := rfl
        simp only [hai] at ha
        split at ha
        · simp only [List.mem_map, List.mem_range] at ha
          obtain ⟨row, _, rfl⟩ := ha
          exact le_trans (and_0fff_le _) (by decide)
        · split at ha
          · split at ha
            · simp only [List.mem_cons, List.mem_singleton, List.not_mem_nil, or_false] at ha
              omega
            · split at ha
              · exact le_trans (regLoopAccesses_le _ _ hi a ha) (by decide)
              · split at ha
                · exact le_trans (regLoopAccesses_le _ _ hi a ha) (by decide)
                · simp at ha
          · simp at ha
      · split at ha
        · exact le_trans (errorAccesses_le _ a ha) (by decide)
        · simp at ha

/-- Past the end of `ram` the accesses fall on the registers.  After the taken skip of
`skipAtEndState` (`pc = 0x1000`, `V0 = 0x90`, `ram[1] = 0x90`) the word fetched is `9090`,
made of `V0` and `ram[1]`, and the machine runs on at `pc = 4`.  The store-bcd word `F233`
with `I = 0xFFF` and `V2 = 234` writes `2` to `ram[0xFFF]`, `3` to `V0` and `4` to `V1`. -/
theorem accesses_past_ram_fall_on_registers :
    (step 0 skipAtEndState).pc = 0x1000 ∧ fetchWord (step 0 skipAtEndState) = 0x9090 ∧
    Running (step 0 (step 0 skipAtEndState)) ∧ (step 0 (step 0 skipAtEndState)).pc = 4 ∧
    Running bcdPastEndState ∧ bcdPastEndState.i = 0xFFF ∧ bcdPastEndState.v 2 = 234 ∧
    fetchWord bcdPastEndState = 0xF233 ∧
    (step 0 bcdPastEndState).ram 0xFFF = 2 ∧ (step 0 bcdPastEndState).v 0 = 3 ∧
    (step 0 bcdPastEndState).v 1 = 4 ∧ (step 0 bcdPastEndState).v 2 = 234 := by
  refine ⟨by decide, by decide, ⟨by decide, by decide⟩, by decide, ⟨by decide, by decide⟩,
    by decide, by decide, by decide, by decide, by decide, by decide, by decide⟩

/-! ## A fetch past the end of memory -/

/-- At `pc = 0x1000` the first byte of the word is `V0` and the second is `ram[1]`: with
`V0 = 0xF0` and `ram[1] = 0x15` the word fetched is the set-delay word `F015`, and `step`
sets `delay_tmr = V0 = 240`. -/
theorem set_delay_fetched_past_ram :
    Reachable delayPastEndState ∧ Running delayPastEndState ∧ delayPastEndState.pc = 0x1000 ∧
    delayPastEndState.v 0 = 0xF0 ∧ delayPastEndState.ram 1 = 0x15 ∧
    fetchWord delayPastEndState = 0xF015 ∧ (step 0 delayPastEndState).delay_tmr = 240 ∧
    (step 0 delayPastEndState).pc = 2 := by
  have hreach : Reachable delayPastEndState := reachable_rom_steps _ _ 10
  exact ⟨hreach, ⟨by decide, by decide⟩, by decide, by decide, by decide, by decide,
    by decide, by decide⟩

/-! ## C19: 12-bit addresses -/

/-- Claim C19: in every reachable state `i ≤ 0xFFF` and every entry of the call stack is at
most `0xFFF`. -/
theorem address_register_and_stack_are_12_bit (s : Chip8) (h : Reachable s) :
    s.i ≤ 0xFFF ∧ ∀ a ∈ s.stack, a ≤ 0xFFF :=
  ⟨(Inv.reachable s h).i_le, (Inv.reachable s h).stack_le⟩

/-- Claim C19 at the ROM `22 04 00 00 00 EE` after its call: the call stack is `[0x202]`
and `i = 0`. -/
theorem address_register_and_stack_are_12_bit_witness :
    Reachable (step 0 callProgram) ∧ (step 0 callProgram).stack = [0x202] ∧
    (step 0 callProgram).i ≤ 0xFFF ∧ ∀ a ∈ (step 0 callProgram).stack, a ≤ 0xFFF := by
  have hreach : Reachable (step 0 callProgram) :=
    reachable_rom_steps [0x22, 0x04, 0x00, 0x00, 0x00, 0xEE] (fun _ => 0) 1
  have h := address_register_and_stack_are_12_bit (step 0 callProgram) hreach
  exact ⟨hreach, by decide, h.1, h.2⟩

/-! ## C20: call and return -/

theorem exec_call (rnd NNN : Nat) (t : Chip8) (hN : NNN < 4096) :
    exec rnd (0x2000 + NNN) t = { t with stack := t.stack ++ [t.pc], pc := NNN } := by
  have h1 : (0x2000 + NNN) &&& 0xf000 = 0x2000 := by rw [and_f000]; omega
  have h2 : (0x2000 + NNN) &&& 0x0fff = NNN := by rw [and_0fff]; omega
  unfold exec
  simp only [h1, h2]
  norm_num

theorem exec_return (rnd : Nat) (t : Chip8) (back : Nat) (h : t.stack.getLast? = some back) :
    exec rnd 0x00EE t = { t with pc := back, stack := t.stack.dropLast } := by
  have h0 : (0x00EE &&& 0xf000) = 0 := by decide
  unfold exec
  simp [h0, h]

/-- Claim C20: for a running state with `pc = p ≤ 0xFFF` holding a call word 2NNN, and the
word `0x00EE` stored at address NNN, two `step` calls leave `pc = (p + 2) mod 4096`, the call
stack as it was before the call, no fault and no pending key, and registers, `I`, memory,
display, timers and keys unchanged. -/
theorem call_then_return (r1 r2 : Nat) (s : Chip8) (NNN : Nat) (hr : Running s)
    (_hpc : s.pc ≤ 0xFFF) (hN : NNN < 4096) (hw : fetchWord s = 0x2000 + NNN)
    (hret : fetchWord { s with pc := NNN } = 0x00EE) :
    (step r2 (step r1 s)).pc = (s.pc + 2) % 4096 ∧
    (step r2 (step r1 s)).stack = s.stack ∧
    (step r2 (step r1 s)).error_type = Chip8_NoError ∧
    (step r2 (step r1 s)).awaiting_keypress = none ∧
    (step r2 (step r1 s)).v = s.v ∧ (step r2 (step r1 s)).i = s.i ∧
    (step r2 (step r1 s)).ram = s.ram ∧ (step r2 (step r1 s)).display = s.display ∧
    (step r2 (step r1 s)).delay_tmr = s.delay_tmr ∧
    (step r2 (step r1 s)).sound_tmr = s.sound_tmr ∧
    (step r2 (step r1 s)).keys = s.keys := by
  have e1 : step r1 s = { advance s with stack := s.stack ++ [(advance s).pc], pc := NNN } := by
    rw [step_running r1 s hr, hw, exec_call r1 NNN _ hN]
    rfl
  have hr1 : Running (step r1 s) := by rw [e1]; exact hr
  have hw1 : fetchWord (step r1 s) = 0x00EE := by rw [e1]; exact hret
  have hlast : (advance (step r1 s)).stack.getLast? = some ((s.pc + 2) % 4096) := by
    rw [e1]
    show (s.stack ++ [(advance s).pc]).getLast? = _
    rw [List.getLast?_concat, advance_pc]
  have e2 : step r2 (step r1 s) =
      { advance (step r1 s) with
        pc := (s.pc + 2) % 4096, stack := (advance (step r1 s)).stack.dropLast } := by
    rw [step_running r2 _ hr1, hw1, exec_return r2 _ _ hlast]
  have hdrop : (advance (step r1 s)).stack.dropLast = s.stack := by
    rw [e1]
    show (s.stack ++ [(advance s).pc]).dropLast = _
    rw [List.dropLast_concat]
  rw [e2]
  refine ⟨rfl, hdrop, ?_, ?_, ?_, ?_, ?_, ?_, ?_, ?_, ?_⟩
  · exact hr1.1
  · exact hr1.2
  all_goals (rw [e1]; rfl)

/-- Claim C20 at the ROM `22 04 00 00 00 EE`: after the call and the return `pc = 0x202` and
the call stack is empty again. -/
theorem call_then_return_witness :
    Running callProgram ∧ callProgram.pc ≤ 0xFFF ∧ (0x204 : Nat) < 4096 ∧
    fetchWord callProgram = 0x2000 + 0x204 ∧
    fetchWord { callProgram with pc := 0x204 } = 0x00EE ∧
    (step 0 (step 0 callProgram)).pc = 0x202 ∧
    (step 0 (step 0 callProgram)).stack = [] ∧
    (step 0 (step 0 callProgram)).error_type = Chip8_NoError := by
  have h := call_then_return 0 0 callProgram 0x204 ⟨rfl, rfl⟩ (by decide) (by decide)
    (by decide) (by decide)
  exact ⟨⟨rfl, rfl⟩, by decide, by decide, by decide, by decide, h.1.trans (by decide),
    h.2.1, h.2.2.1⟩

end Chip8cc
